import Mathlib

/-!
Verification model of the `FastSync` synchronization engine in
`fast_sync.py`.  The engine operates on rows loaded from a remote
spreadsheet service, so row cells are JSON-derived values: strings,
numbers, null, single-select objects (dicts carrying a `name` entry) and
multi-select lists.  Python numbers (int/float) are modelled as exact
rationals; the `str()` rendering of composite values is abstracted (no
verified claim depends on the textual repr of a dict, a list, or a
float).
-/

/-!
Python float arithmetic is modelled by exact rationals.  The library
operations on `ℚ` normalize through `Nat.gcd`, which is defined by
well-founded recursion and does not reduce inside the kernel, so the
definitions below use structurally-recursive counterparts (`qMk`,
`qAdd`, ...) proved equal to the library operations; concrete runs of
the model then evaluate by `decide`/`rfl`.
-/

def sgcdGo : Nat → Nat → Nat → Nat
  | 0, _, n => n
  | fuel + 1, m, n => if m = 0 then n else sgcdGo fuel (n % m) m

/-- Structurally-recursive `Nat.gcd`. -/
def sgcd (m n : Nat) : Nat := sgcdGo (m + 1) m n

theorem sgcdGo_eq : ∀ (fuel m n : Nat), m < fuel → sgcdGo fuel m n = Nat.gcd m n
  | 0, m, _, h => absurd h (Nat.not_lt_zero m)
  | fuel + 1, m, n, h => by
    simp only [sgcdGo]
    split
    · rename_i hm
      rw [hm, Nat.gcd_zero_left]
    · rename_i hm
      rw [sgcdGo_eq fuel (n % m) m
        (Nat.lt_of_lt_of_le (Nat.mod_lt _ (Nat.pos_of_ne_zero hm))
          (Nat.le_of_lt_succ h))]
      exact (Nat.gcd_rec m n).symm

theorem sgcd_eq (m n : Nat) : sgcd m n = Nat.gcd m n :=
  sgcdGo_eq (m + 1) m n (Nat.lt_succ_self m)

def qMkNum (n : Int) (d : Nat) : Int :=
  if d = 0 then 0 else n / (sgcd n.natAbs d : Int)

def qMkDen (n : Int) (d : Nat) : Nat :=
  if d = 0 then 1 else d / sgcd n.natAbs d

theorem qMk_den_nz (n : Int) (d : Nat) : qMkDen n d ≠ 0 := by
  unfold qMkDen
  split
  · exact Nat.one_ne_zero
  · rename_i hd
    rw [sgcd_eq]
    have hg : 0 < Nat.gcd n.natAbs d :=
      Nat.gcd_pos_of_pos_right _ (Nat.pos_of_ne_zero hd)
    have hle : Nat.gcd n.natAbs d ≤ d :=
      Nat.le_of_dvd (Nat.pos_of_ne_zero hd) (Nat.gcd_dvd_right _ _)
    exact (Nat.div_pos hle hg).ne'

theorem qMk_reduced (n : Int) (d : Nat) :
    (qMkNum n d).natAbs.Coprime (qMkDen n d) := by
  unfold qMkNum qMkDen
  by_cases hd : d = 0
  · simp only [if_pos hd, Int.natAbs_zero]
    exact Nat.coprime_one_right 0
  · simp only [if_neg hd, sgcd_eq]
    exact Rat.normalize.reduced' hd rfl

/-- Structurally-computable `mkRat`. -/
def qMk (n : Int) (d : Nat) : ℚ :=
  ⟨qMkNum n d, qMkDen n d, qMk_den_nz n d, qMk_reduced n d⟩

theorem qMk_eq (n : Int) (d : Nat) : qMk n d = mkRat n d := by
  by_cases hd : d = 0
  · subst hd
    simp [qMk, qMkNum, qMkDen, mkRat]
  · rw [← Rat.normalize_eq_mkRat hd, Rat.normalize_eq]
    simp [qMk, qMkNum, qMkDen, if_neg hd, sgcd_eq, Rat.mk'.injEq]

/-- Structurally-computable rational addition. -/
def qAdd (a b : ℚ) : ℚ := qMk (a.num * b.den + b.num * a.den) (a.den * b.den)

theorem qAdd_eq (a b : ℚ) : qAdd a b = a + b := by
  rw [qAdd, qMk_eq]
  exact (Rat.add_def' a b).symm

/-- Structurally-computable rational subtraction. -/
def qSub (a b : ℚ) : ℚ := qMk (a.num * b.den - b.num * a.den) (a.den * b.den)

theorem qSub_eq (a b : ℚ) : qSub a b = a - b := by
  rw [qSub, qMk_eq]
  exact (Rat.sub_def' a b).symm

/-- Structurally-computable rational multiplication. -/
def qMul (a b : ℚ) : ℚ := qMk (a.num * b.num) (a.den * b.den)

theorem qMul_eq (a b : ℚ) : qMul a b = a * b := by
  rw [qMul, qMk_eq, ← Rat.normalize_eq_mkRat (Nat.mul_ne_zero a.den_nz b.den_nz)]
  exact (Rat.mul_def a b).symm

/-- Structurally-computable `Rat.divInt`. -/
def qMkI (n d : Int) : ℚ :=
  if 0 ≤ d then qMk n d.toNat else qMk (-n) (-d).toNat

theorem qMkI_eq (n d : Int) : qMkI n d = Rat.divInt n d := by
  cases d with
  | ofNat m =>
    simp [qMkI, Rat.divInt, qMk_eq]
  | negSucc m =>
    have hn : ¬ (0 ≤ Int.negSucc m) := by
      exact Int.not_le.2 (Int.negSucc_lt_zero m)
    rw [qMkI, if_neg hn, qMk_eq]
    show mkRat (-n) (-Int.negSucc m).toNat = Rat.divInt n (Int.negSucc m)
    rw [Int.neg_negSucc]
    show mkRat (-n) (m + 1) = Rat.normalize (-n) (m + 1) (Nat.succ_ne_zero m)
    rw [Rat.normalize_eq_mkRat]

/-- Structurally-computable rational division (division by zero gives
zero, as in `ℚ`). -/
def qDiv (a b : ℚ) : ℚ := qMkI (a.num * b.den) (a.den * b.num)

theorem qDiv_eq (a b : ℚ) : qDiv a b = a / b := by
  rw [qDiv, qMkI_eq]
  exact (Rat.div_def' a b).symm

/-- Structurally-computable absolute value on `ℚ` (negation is already
structural). -/
def qAbs (a : ℚ) : ℚ := if a.num < 0 then -a else a

theorem qAbs_eq (a : ℚ) : qAbs a = |a| := by
  unfold qAbs
  split
  · rename_i h
    rw [abs_of_neg (Rat.num_neg.1 h)]
  · rename_i h
    rw [abs_of_nonneg (Rat.num_nonneg.1 (Int.not_lt.1 h))]

/-- Structurally-computable cast of a natural number into `ℚ`. -/
def qOfNat (n : Nat) : ℚ := qMk n 1

theorem qOfNat_eq (n : Nat) : qOfNat n = (n : ℚ) := by
  rw [qOfNat, qMk_eq, Rat.mkRat_one]
  rfl

/-- An element of a multi-select cell: either a plain string or a
select-object with an optional `name` entry (mirrors the two cases the
code distinguishes in `_compare_with_operator`). -/
inductive MultiElem where
  | mstr (s : String)
  | msel (name : Option String)
deriving DecidableEq, Repr

/-- A cell value as seen by the engine. `select` is a dict with a `name`
entry; `multi` is a list-valued (multi-select) cell. -/
inductive Value where
  | null
  | str (s : String)
  | num (q : ℚ)
  | select (name : Option String)
  | multi (elems : List MultiElem)
deriving DecidableEq, Repr

/-- A row is a finite map from field name to value, modelled as an
association list with distinct keys (a Python dict).  A key present
with value `null` corresponds to a key mapped to `None`, which is
distinct from an absent key. -/
abbrev Row := List (String × Value)

/-- Dict/assoc-list lookup (`d[k]` / `d.get(k)`). -/
def lookupKV {β : Type} (l : List (String × β)) (k : String) : Option β :=
  match l with
  | [] => none
  | (k', v) :: rest => if k' = k then some v else lookupKV rest k

/-- `row.get(field)`. -/
def rowGet (r : Row) (f : String) : Option Value :=
  lookupKV r f

/-- Dict assignment `d[k] = v` (replace first occurrence or append). -/
def setKey {β : Type} (l : List (String × β)) (k : String) (v : β) :
    List (String × β) :=
  match l with
  | [] => [(k, v)]
  | (k', v') :: rest =>
    if k' = k then (k', v) :: rest else (k', v') :: setKey rest k v

/-- Kernel-computable character-level counterparts of the string
operations the code uses (`strip`, `split`, `replace`, join); the
library versions are built on `Substring` positions and do not reduce
inside the kernel.  Python `str.strip()` removes whitespace; the ASCII
whitespace of `Char.isWhitespace` stands in for it. -/
def trimChars (cs : List Char) : List Char :=
  ((cs.dropWhile Char.isWhitespace).reverse.dropWhile Char.isWhitespace).reverse

/-- Python `s.strip()`. -/
def pyTrim (s : String) : String :=
  String.mk (trimChars s.data)

def splitOnCharGo (sep : Char) : List Char → List Char → List (List Char)
  | [], acc => [acc.reverse]
  | c :: rest, acc =>
    if c = sep then acc.reverse :: splitOnCharGo sep rest []
    else splitOnCharGo sep rest (c :: acc)

/-- Python `s.split(sep)` for a one-character separator. -/
def splitOnChar (sep : Char) (s : String) : List String :=
  (splitOnCharGo sep s.data []).map String.mk

def listPrefixEq : List Char → List Char → Bool
  | [], _ => true
  | _ :: _, [] => false
  | a :: as, b :: bs => a = b && listPrefixEq as bs

def replaceChars (pat rep : List Char) : Nat → List Char → List Char
  | 0, cs => cs
  | fuel + 1, cs =>
    match cs with
    | [] => []
    | c :: rest =>
      if listPrefixEq pat cs then rep ++ replaceChars pat rep fuel (cs.drop pat.length)
      else c :: replaceChars pat rep fuel rest

/-- Python `s.replace(pat, rep)` (left-to-right, non-overlapping), for a
non-empty pattern. -/
def strReplace (s pat rep : String) : String :=
  if pat = "" then s
  else String.mk (replaceChars pat.data rep.data s.data.length s.data)

/-- Python `sep.join(parts)`. -/
def joinSep (sep : String) : List String → String
  | [] => ""
  | [x] => x
  | x :: rest => x ++ sep ++ joinSep sep rest

/-- Abstracted `str()` for numbers.  Exact Python float formatting is not
reproduced; no verified claim depends on it. -/
def numRepr (q : ℚ) : String :=
  if q.den = 1 then toString q.num
  else toString q.num ++ "/" ++ toString q.den

/-- Python `str()` on a cell value.  `str(None) = "None"`; the repr of
dict- and list-valued cells is abstracted to a fixed non-empty string
(Python reprs of dicts/lists are always non-empty). -/
def pyStr : Value → String
  | Value.null => "None"
  | Value.str s => s
  | Value.num q => numRepr q
  | Value.select _ => "[select-object]"
  | Value.multi _ => "[multi-list]"

/-- Python truthiness of a cell value. -/
def pyTruthy : Value → Bool
  | Value.null => false
  | Value.str s => s ≠ ""
  | Value.num q => q ≠ 0
  | Value.select _ => true
  | Value.multi l => l ≠ []

/-- Parse a decimal/scientific float literal the way `float(s)` does
(sign, integer/fraction digits, optional exponent).  The special forms
`inf`/`nan` and digit-group underscores are outside the model: they
cannot be represented in `ℚ` and no claim exercises them. -/
def parseFloatCore (cs : List Char) : Option ℚ :=
  let (neg, cs) : Bool × List Char :=
    match cs with
    | '-' :: r => (true, r)
    | '+' :: r => (false, r)
    | _ => (false, cs)
  let ip := cs.takeWhile Char.isDigit
  let cs1 := cs.dropWhile Char.isDigit
  let ipVal : ℚ := qOfNat (ip.foldl (fun a c => a * 10 + (c.toNat - 48)) 0)
  let finish (mant : ℚ) (rest : List Char) : Option ℚ :=
    match rest with
    | [] => some (if neg then -mant else mant)
    | e :: r =>
      if e = 'e' ∨ e = 'E' then
        let (esign, r1) : Bool × List Char :=
          match r with
          | '-' :: r2 => (true, r2)
          | '+' :: r2 => (false, r2)
          | _ => (false, r)
        let ed := r1.takeWhile Char.isDigit
        let r2 := r1.dropWhile Char.isDigit
        if ed = [] ∨ r2 ≠ [] then none
        else
          let ev : ℕ := ed.foldl (fun a c => a * 10 + (c.toNat - 48)) 0
          let scaled :=
            if esign then qDiv mant (qOfNat (10 ^ ev))
            else qMul mant (qOfNat (10 ^ ev))
          some (if neg then -scaled else scaled)
      else none
  match cs1 with
  | '.' :: r =>
    let fp := r.takeWhile Char.isDigit
    let r1 := r.dropWhile Char.isDigit
    if ip = [] ∧ fp = [] then none
    else
      let fpVal : ℚ :=
        qMk (fp.foldl (fun a c => a * 10 + (c.toNat - 48)) 0 : ℕ) (10 ^ fp.length)
      finish (qAdd ipVal fpVal) r1
  | rest =>
    if ip = [] then none else finish ipVal rest

/-- `float(s)` on an (already whitespace-stripped) string. -/
def parseFloat (s : String) : Option ℚ :=
  parseFloatCore s.data

/-- Strict `float(value)` coercion: numbers pass through, strings are
parsed after stripping whitespace, everything else raises (`none`). -/
def pyFloatStrict : Value → Option ℚ
  | Value.num q => some q
  | Value.str s => parseFloat (pyTrim s)
  | _ => none

/-- Calendar date (as produced by `datetime.date`). -/
structure Date where
  year : Nat
  month : Nat
  day : Nat
deriving DecidableEq, Repr

def isLeapYear (y : Nat) : Bool :=
  (y % 4 = 0 && y % 100 ≠ 0) || (y % 400 = 0)

def daysInMonth (y m : Nat) : Nat :=
  if m = 2 then (if isLeapYear y then 29 else 28)
  else if m = 4 ∨ m = 6 ∨ m = 9 ∨ m = 11 then 30
  else 31

/-- The constraints `datetime.date(y, m, d)` enforces (raising
`ValueError` otherwise). -/
def validDate (y m d : Nat) : Bool :=
  1 ≤ y && y ≤ 9999 && 1 ≤ m && m ≤ 12 && 1 ≤ d && d ≤ daysInMonth y m

/-- `date(y, m, d)` with the `ValueError` modelled as `none`. -/
def mkDate (y m d : Nat) : Option Date :=
  if validDate y m d then some ⟨y, m, d⟩ else none

/-- Totally ordered key for a date (injective on valid dates). -/
def Date.key (d : Date) : Nat :=
  d.year * 10000 + d.month * 100 + d.day

/-- `s` is a run of decimal digits with length between `lo` and `hi`. -/
def isDigitRun (s : String) (lo hi : Nat) : Bool :=
  lo ≤ s.length && s.length ≤ hi && s.data.all Char.isDigit

def natOfDigits (s : String) : Nat :=
  s.data.foldl (fun a c => a * 10 + (c.toNat - 48)) 0

/-- Drop a time-of-day suffix: take the part before the first `T`, then
the part before the first space (mirrors the two `split(...)[0]` steps
in `_try_parse_date`). -/
def stripTimeOfDay (s : String) : String :=
  let s2 := ((splitOnChar 'T' s).headD s)
  ((splitOnChar ' ' s2).headD s2)

/-- Python `re` without `MULTILINE`: `$` matches at the end of the
string and also just before one final newline, so the regex tolerates a
single trailing `\n` after the last digit run. -/
def dropTrailingNewline (s : String) : String :=
  match s.data.getLast? with
  | some c => if c = '\n' then String.mk s.data.dropLast else s
  | none => s

/-- The shape `re.match` with `^\d{4}-\d{1,2}-\d{1,2}$` accepts in
`_try_parse_date`: the digit-dash form, optionally followed by one
trailing newline (the `$` semantics above). -/
def matchesDateShape (s : String) : Bool :=
  match splitOnChar '-' (dropTrailingNewline s) with
  | [a, b, c] => isDigitRun a 4 4 && isDigitRun b 1 2 && isDigitRun c 1 2
  | _ => false

/-- `FastSync._try_parse_date`: best-effort parse of a value as a
calendar date.  Non-strings and non-matching strings give `none`; the
`date(...)` constructor exception for out-of-range triples is caught and
gives `none`.  When the regex matched with a trailing newline, that
newline sits at the end of the last `-`-split part and `int()` ignores
it (it strips surrounding whitespace), so the split is taken on the
newline-stripped string. -/
def try_parse_date (v : Value) : Option Date :=
  match v with
  | Value.str s0 =>
    let s1 := pyTrim s0
    if s1 = "" then none
    else
      let s3 := stripTimeOfDay s1
      if matchesDateShape s3 then
        match splitOnChar '-' (dropTrailingNewline s3) with
        | [a, b, c] => mkDate (natOfDigits a) (natOfDigits b) (natOfDigits c)
        | _ => none
      else none
  | _ => none

/-- `FastSync._try_parse_number`: numbers pass through; strings are
stripped, thousands separators (commas) removed, then parsed as a
float; everything else gives `none`. -/
def try_parse_number (v : Value) : Option ℚ :=
  match v with
  | Value.num q => some q
  | Value.str s => parseFloat (strReplace (pyTrim s) "," "")
  | _ => none

/-- A `datetime` value as produced by `datetime.strptime`. -/
structure PyDateTime where
  year : Nat
  month : Nat
  day : Nat
  hour : Nat
  minute : Nat
  second : Nat
deriving DecidableEq, Repr

/-- Totally ordered key (injective on in-range datetimes, which is all
`strptime` can produce). -/
def PyDateTime.key (t : PyDateTime) : Nat :=
  ((((t.year * 13 + t.month) * 32 + t.day) * 24 + t.hour) * 60 + t.minute)
    * 60 + t.second

/-- One strptime directive (only those used by the format list). -/
inductive FTok where
  | lit (c : Char)
  | ws
  | y4
  | mo
  | dy
  | hr
  | mi
  | se
deriving DecidableEq, Repr

/-- Accumulated strptime fields with the CPython defaults 1900-01-01. -/
structure PFields where
  y : Nat := 1900
  m : Nat := 1
  d : Nat := 1
  hh : Nat := 0
  mm : Nat := 0
  ss : Nat := 0
deriving DecidableEq, Repr

def digitVal (c : Char) : Nat := c.toNat - 48

/-- Backtracking matcher for a strptime format over the whole input
string, following the CPython `_strptime` regexes: `%Y` is exactly four
digits; `%m`, `%d`, `%H`, `%M`, `%S` try their two-digit alternatives
before the bare one-digit alternative; a whitespace in the format
matches one or more whitespace characters; the whole input must be
consumed. -/
def matchToks (acc : PFields) : List FTok → List Char → Option PFields
  | [], cs => if cs = [] then some acc else none
  | t :: ts, cs =>
    match t with
    | FTok.lit c =>
      match cs with
      | c' :: r => if c' = c then matchToks acc ts r else none
      | [] => none
    | FTok.ws =>
      match cs with
      | c :: r =>
        if c.isWhitespace then matchToks acc ts (r.dropWhile Char.isWhitespace)
        else none
      | [] => none
    | FTok.y4 =>
      match cs with
      | a :: b :: c :: d :: r =>
        if a.isDigit && b.isDigit && c.isDigit && d.isDigit then
          matchToks
            { acc with
              y := ((digitVal a * 10 + digitVal b) * 10 + digitVal c) * 10
                + digitVal d } ts r
        else none
      | _ => none
    | FTok.mo =>
      (match cs with
       | a :: b :: r =>
         if a.isDigit && b.isDigit then
           let v := digitVal a * 10 + digitVal b
           if (10 ≤ v && v ≤ 12) || (a = '0' && 1 ≤ v && v ≤ 9) then
             matchToks { acc with m := v } ts r
           else none
         else none
       | _ => none) <|>
      (match cs with
       | a :: r =>
         if a.isDigit && 1 ≤ digitVal a then
           matchToks { acc with m := digitVal a } ts r
         else none
       | [] => none)
    | FTok.dy =>
      (match cs with
       | a :: b :: r =>
         if a.isDigit && b.isDigit then
           let v := digitVal a * 10 + digitVal b
           if (30 ≤ v && v ≤ 31) || (10 ≤ v && v ≤ 29)
               || (a = '0' && 1 ≤ v && v ≤ 9) then
             matchToks { acc with d := v } ts r
           else none
         else none
       | _ => none) <|>
      (match cs with
       | a :: r =>
         if a.isDigit && 1 ≤ digitVal a then
           matchToks { acc with d := digitVal a } ts r
         else none
       | [] => none)
    | FTok.hr =>
      (match cs with
       | a :: b :: r =>
         if a.isDigit && b.isDigit then
           let v := digitVal a * 10 + digitVal b
           if v ≤ 23 then matchToks { acc with hh := v } ts r else none
         else none
       | _ => none) <|>
      (match cs with
       | a :: r =>
         if a.isDigit then matchToks { acc with hh := digitVal a } ts r
         else none
       | [] => none)
    | FTok.mi =>
      (match cs with
       | a :: b :: r =>
         if a.isDigit && b.isDigit then
           let v := digitVal a * 10 + digitVal b
           if v ≤ 59 then matchToks { acc with mm := v } ts r else none
         else none
       | _ => none) <|>
      (match cs with
       | a :: r =>
         if a.isDigit then matchToks { acc with mm := digitVal a } ts r
         else none
       | [] => none)
    | FTok.se =>
      (match cs with
       | a :: b :: r =>
         if a.isDigit && b.isDigit then
           let v := digitVal a * 10 + digitVal b
           if v ≤ 61 then matchToks { acc with ss := v } ts r else none
         else none
       | _ => none) <|>
      (match cs with
       | a :: r =>
         if a.isDigit then matchToks { acc with ss := digitVal a } ts r
         else none
       | [] => none)

def fmtHMS : List FTok := [FTok.hr, FTok.lit ':', FTok.mi, FTok.lit ':', FTok.se]

def fmtHM : List FTok := [FTok.hr, FTok.lit ':', FTok.mi]

/-- The three variants `<date> %H:%M:%S`, `<date> %H:%M`, `<date>` used
for every date shape in `_try_parse_datetime`. -/
def withTimes (d : List FTok) : List (List FTok) :=
  [d ++ [FTok.ws] ++ fmtHMS, d ++ [FTok.ws] ++ fmtHM, d]

/-- The 18 formats of `_try_parse_datetime`, in source order. -/
def timeFormats : List (List FTok) :=
  withTimes [FTok.y4, FTok.lit '-', FTok.mo, FTok.lit '-', FTok.dy] ++
  withTimes [FTok.y4, FTok.lit '/', FTok.mo, FTok.lit '/', FTok.dy] ++
  withTimes [FTok.y4, FTok.lit '年', FTok.mo, FTok.lit '月', FTok.dy,
    FTok.lit '日'] ++
  withTimes [FTok.y4, FTok.lit '.', FTok.mo, FTok.lit '.', FTok.dy] ++
  withTimes [FTok.mo, FTok.lit '/', FTok.dy, FTok.lit '/', FTok.y4] ++
  withTimes [FTok.dy, FTok.lit '/', FTok.mo, FTok.lit '/', FTok.y4]

/-- `datetime(...)` constraints checked after a format regex matches:
the day must exist in the month and leap seconds are rejected
(`ValueError`, caught by the loop, which then tries the next format). -/
def validPF (f : PFields) : Bool :=
  (mkDate f.y f.m f.d).isSome && f.ss ≤ 59

def firstMatch : List (List FTok) → List Char → Option PyDateTime
  | [], _ => none
  | f :: fs, cs =>
    match matchToks {} f cs with
    | some pf =>
      if validPF pf then some ⟨pf.y, pf.m, pf.d, pf.hh, pf.mm, pf.ss⟩
      else firstMatch fs cs
    | none => firstMatch fs cs

/-- `FastSync._try_parse_datetime`: falsy values give `none`; strings
are stripped and tried against the format list in order.  (The
`isinstance(value, datetime)` branch is unreachable for JSON-derived
rows and is therefore not represented in `Value`.) -/
def try_parse_datetime (v : Value) : Option PyDateTime :=
  if ¬ pyTruthy v then none
  else
    match v with
    | Value.str s =>
      let s1 := pyTrim s
      if s1 = "" then none else firstMatch timeFormats s1.data
    | _ => none

/-- A filter condition (`field`, `op`, `value`), with the defaults
`_check_conditions` supplies via `.get`. -/
structure Condition where
  field : String := ""
  op : String := "="
  value : Value := Value.str ""
deriving DecidableEq, Repr

/-- Rule-level (or global) configuration for the `latest` aggregation. -/
structure LatestCfg where
  time_field : Option String := none
  sort_order : Option String := none
  fallback_time_fields : Option (List String) := none
deriving DecidableEq, Repr

/-- The externally supplied data dictionary: variable substitutions plus
the nested `latest_aggregation_config` object (here lifted into a typed
field; its entries play the roles of `default_time_field`,
`default_sort_order` and `fallback_time_fields`). -/
structure DataDict where
  entries : List (String × Value) := []
  latest : LatestCfg := {}
deriving Repr

def lbrace : Char := Char.ofNat 123

def rbrace : Char := Char.ofNat 125

/-- The regex `^\{([^:\.=]+)\}$` of `_resolve_variable`: a single
brace-wrapped token whose inside is non-empty and free of `:`, `.` and
`=`. -/
def isSimpleVarPattern (s : String) : Bool :=
  let cs := s.data
  match cs with
  | c :: rest =>
    c = lbrace && rest ≠ [] && rest.getLast? = some rbrace &&
      (rest.dropLast ≠ [] &&
        rest.dropLast.all (fun ch => ch ≠ ':' && ch ≠ '.' && ch ≠ '='))
  | [] => false

def varKeyOf (s : String) : String :=
  String.mk s.data.tail.dropLast

/-- `FastSync._resolve_variable`: substitute a `{name}` token from the
data dictionary, else return the value unchanged. -/
def resolve_variable (dd : DataDict) (v : Value) : Value :=
  match v with
  | Value.str s =>
    if isSimpleVarPattern s then
      match lookupKV dd.entries (varKeyOf s) with
      | some x => x
      | none => v
    else v
  | _ => v

/-- `FastSync._compare`: operator dispatch over an already-typed pair
(dates are compared through their order key). -/
def compare_ops {α : Type} [LinearOrder α] (a b : α) (op : String) : Bool :=
  if op = "=" then a = b
  else if op = "!=" then ¬ (a = b)
  else if op = "<=" then a ≤ b
  else if op = ">=" then b ≤ a
  else if op = "<" then a < b
  else if op = ">" then b < a
  else true

/-- Split on ASCII and fullwidth commas (`re.split r'[，,]'`). -/
def splitOnCommas (s : String) : List String :=
  (splitOnChar ',' s).flatMap (fun p => splitOnChar '，' p)

/-- The token list the `包含` (contains) operator matches against. -/
def containsTokens (cvStr : String) : List String :=
  let tokens := ((splitOnCommas cvStr).map pyTrim).filter
    (fun t => t ≠ "")
  if tokens = [] ∧ pyTrim cvStr ≠ "" then [pyTrim cvStr] else tokens

def listInfix (needle : List Char) : List Char → Bool
  | [] => needle = ([] : List Char)
  | c :: t => listPrefixEq needle (c :: t) || listInfix needle t

/-- Python substring containment `needle in hay`. -/
def strContains (hay needle : String) : Bool :=
  listInfix needle.data hay.data

/-- The element strings of an array-valued (multi-select) field as the
contains operator stringifies them. -/
def multiElemStr : MultiElem → String
  | MultiElem.mstr s => s
  | MultiElem.msel name =>
    match name with
    | some s => s
    | none => "None"

/-- `FastSync._compare_with_operator`: date comparison if both sides
parse as dates, else numeric if both parse as numbers, else string
comparison with the special empty-value handling for `=`/`!=`, the
multi-token `包含` operator, lexicographic `<=`/`>=`/`<`/`>`, and
permissive `true` for unknown operators. -/
def compare_with_operator (field_value raw_comp_value : Value) (op : String) :
    Bool :=
  match try_parse_date field_value, try_parse_date raw_comp_value with
  | some fd, some cd => compare_ops fd.key cd.key op
  | _, _ =>
  match try_parse_number field_value, try_parse_number raw_comp_value with
  | some fq, some cq => compare_ops fq cq op
  | _, _ =>
    let fvStr : String :=
      match field_value with
      | Value.select name => (match name with
        | some s => s
        | none => "")
      | Value.null => ""
      | v => pyStr v
    let cvStr : String :=
      match raw_comp_value with
      | Value.null => ""
      | v => pyStr v
    if op = "=" then
      if cvStr = "" ∧ (field_value = Value.null ∨ fvStr = "") then true
      else fvStr = cvStr
    else if op = "!=" then
      if cvStr = "" ∧ (field_value = Value.null ∨ fvStr = "") then false
      else ¬ (fvStr = cvStr)
    else if op = "包含" then
      let tokens := containsTokens cvStr
      match field_value with
      | Value.multi elems =>
        let strs := elems.map multiElemStr
        tokens.any (fun t => t ≠ "" && strs.any (fun e => strContains e t))
      | _ => tokens.any (fun t => t ≠ "" && strContains fvStr t)
    else if op = "<=" then fvStr ≤ cvStr
    else if op = ">=" then cvStr ≤ fvStr
    else if op = "<" then fvStr < cvStr
    else if op = ">" then cvStr < fvStr
    else true

/-- `FastSync._check_conditions`: conjunction over the condition list
(empty list passes); a missing or `None` field value is read as the
empty string, the comparison value goes through variable resolution. -/
def check_conditions (dd : DataDict) (row : Row) (conditions : List Condition) :
    Bool :=
  conditions.all (fun c =>
    let fv : Value :=
      match rowGet row c.field with
      | none => Value.str ""
      | some Value.null => Value.str ""
      | some v => v
    let cv := resolve_variable dd c.value
    compare_with_operator fv cv c.op)

/-- One entry of `multi_field_mappings`, with the defaults the code
reads via `.get`. -/
structure FieldMapping where
  source_field : String := ""
  target_field : String := ""
  aggregation : String := ""
  conditions : List Condition := []
  exclude_conditions : List Condition := []
  factor : ℚ := 1
  concat_fields : List String := []
  math_expression : String := ""
  replace_mappings : List (String × String) := []
deriving Repr

/-- A sync rule, with the defaults `_process_rule` and friends read via
`.get`.  A rule is single-mapping when `multi_field_mappings = none`. -/
structure SyncRule where
  source_table : String := ""
  target_table : String := ""
  source_keys : List String := []
  target_keys : List String := []
  allow_insert : Bool := false
  clear_before_sync : Bool := false
  should_run : Bool := true
  conditions : List Condition := []
  exclude_conditions : List Condition := []
  source_fields : List String := []
  target_fields : List String := []
  factor : ℚ := 1
  aggregation : String := ""
  multi_field_mappings : Option (List FieldMapping) := none
  latest_config : LatestCfg := {}
deriving Repr

/-- Python `x or y` for optional strings (empty string is falsy). -/
def orElseStr (a : Option String) (b : String) : String :=
  match a with
  | some s => if s = "" then b else s
  | none => b

/-- Python `x or y` where both sides are optional strings. -/
def orElseOptStr (a b : Option String) : Option String :=
  match a with
  | some s => if s = "" then b else some s
  | none => b

/-- Python `x or y` for optional lists (empty list is falsy). -/
def orElseList (a : Option (List String)) (b : List String) : List String :=
  match a with
  | some l => if l = [] then b else l
  | none => b

/-- The resolved sort order of `_get_latest_record`:
`latest_config.get('sort_order') or global.get('default_sort_order', 'desc')`. -/
def resolveSortOrder (rule : SyncRule) (dd : DataDict) : String :=
  orElseStr rule.latest_config.sort_order (dd.latest.sort_order.getD "desc")

/-- The time fields `_get_latest_record` tries, in order. -/
def resolveTimeFields (rule : SyncRule) (dd : DataDict) : List String :=
  let tf := orElseOptStr rule.latest_config.time_field dd.latest.time_field
  let fallbacks := orElseList rule.latest_config.fallback_time_fields
    (dd.latest.fallback_time_fields.getD [])
  (match tf with
   | some f => if f ≠ "" then [f] else []
   | none => []) ++ fallbacks

/-- Stable ascending insertion by parsed-time key (equal keys keep the
original relative order, as Python `list.sort` guarantees). -/
def insertAscBy (x : Row × PyDateTime) :
    List (Row × PyDateTime) → List (Row × PyDateTime)
  | [] => [x]
  | y :: ys =>
    if y.2.key < x.2.key then y :: insertAscBy x ys else x :: y :: ys

def sortAscBy (l : List (Row × PyDateTime)) : List (Row × PyDateTime) :=
  l.foldr insertAscBy []

/-- Stable descending insertion by parsed-time key. -/
def insertDescBy (x : Row × PyDateTime) :
    List (Row × PyDateTime) → List (Row × PyDateTime)
  | [] => [x]
  | y :: ys =>
    if x.2.key < y.2.key then y :: insertDescBy x ys else x :: y :: ys

def sortDescBy (l : List (Row × PyDateTime)) : List (Row × PyDateTime) :=
  l.foldr insertDescBy []

/-- The `(record, parsed_time)` pairs of a group that are valid for a
given time field. -/
def validRecordsFor (records : List Row) (f : String) :
    List (Row × PyDateTime) :=
  records.filterMap (fun r =>
    let tv := (rowGet r f).getD Value.null
    if pyTruthy tv && pyTrim (pyStr tv) ≠ "" then
      (try_parse_datetime tv).map (fun t => (r, t))
    else none)

def firstFieldWithValid (records : List Row) :
    List String → Option (List (Row × PyDateTime))
  | [] => none
  | f :: fs =>
    let vr := validRecordsFor records f
    if vr ≠ [] then some vr else firstFieldWithValid records fs

/-- `FastSync._get_latest_record`: resolve a time-field list from rule
and dictionary config, pick the first field with any parseable value,
sort the valid records by parsed time per the resolved order and return
the first; fall back to the first record of the group when no field
yields a parseable time. -/
def get_latest_record (dd : DataDict) (records : List Row) (rule : SyncRule) :
    Option Row :=
  if records = [] then none
  else
    match firstFieldWithValid records (resolveTimeFields rule dd) with
    | some vr =>
      let sorted :=
        if resolveSortOrder rule dd = "desc" then sortDescBy vr
        else sortAscBy vr
      some (sorted.headD ([], ⟨0, 0, 0, 0, 0, 0⟩)).1
    | none => some (records.headD [])

/-- A field-level update payload (the `update`/`insert_data` dicts). -/
abbrev Upd := List (String × Value)

/-- The per-pair field-mapping loop shared by the broadcast, latest and
default branches (`for i, source_field in enumerate(source_fields): if i
< len(target_fields): ...`). -/
def mapFieldsWith (srow : Row) (sourceFields targetFields : List String)
    (tr : Value → Value) : Upd × Bool :=
  (sourceFields.zip targetFields).foldl
    (fun acc p => (setKey acc.1 p.2 (tr ((rowGet srow p.1).getD (Value.str ""))), true))
    ([], false)

/-- `FastSync._prepare_row_data`: compute the update/insert payload for
one source group under the rule-level aggregation mode.  Note the `sum`
branch only adds values that are already numbers (`isinstance(value,
(int, float))`); strings are not coerced.  Callers never pass an empty
group; `headD` stands in for the `[0]` subscript. -/
def prepare_row_data (dd : DataDict) (group : List Row) (aggregation : String)
    (sourceFields targetFields : List String) (factor : ℚ) (rule : SyncRule) :
    Upd × Bool :=
  if aggregation = "broadcast" then
    let srow :=
      match group.find? (fun r => sourceFields.all (fun f =>
        match rowGet r f with
        | some v => v ≠ Value.null && pyTrim (pyStr v) ≠ ""
        | none => false)) with
      | some r => r
      | none =>
        match group.find? (fun r =>
            sourceFields.any (fun f => (rowGet r f).isSome)) with
        | some r => r
        | none => group.headD []
    mapFieldsWith srow sourceFields targetFields id
  else if aggregation = "sum" then
    let sf0 := sourceFields.headD ""
    let total := group.foldl (fun acc r =>
      match (rowGet r sf0).getD (Value.num 0) with
      | Value.num q => qAdd acc q
      | _ => acc) 0
    match targetFields with
    | [] => ([], false)
    | tf0 :: _ => ([(tf0, Value.num (qMul total factor))], true)
  else if aggregation = "latest" then
    match get_latest_record dd group rule with
    | some lr => mapFieldsWith lr sourceFields targetFields id
    | none => ([], false)
  else
    let srow := group.headD []
    mapFieldsWith srow sourceFields targetFields
      (fun v =>
        match v with
        | Value.num q => if factor ≠ 1 then Value.num (qMul q factor) else v
        | _ => v)

/-- A character the token regex `[a-zA-Z0-9_一-龥]+` of
`_evaluate_math_expression` matches. -/
def mathTokenChar (c : Char) : Bool :=
  c.isAlphanum || c = '_' || (0x4e00 ≤ c.toNat && c.toNat ≤ 0x9fa5)

/-- Split the expression into token runs and single non-token
characters (the shape `re.sub` walks). -/
def tokenizeMathGo : Nat → List Char → List (Sum (List Char) Char)
  | 0, _ => []
  | _, [] => []
  | fuel + 1, c :: r =>
    if mathTokenChar c then
      Sum.inl (c :: r.takeWhile mathTokenChar) ::
        tokenizeMathGo fuel (r.dropWhile mathTokenChar)
    else Sum.inr c :: tokenizeMathGo fuel r

/-- The numeric value `replace_field` substitutes for a field token:
`None`/empty give 0, numbers pass through, parseable strings parse,
anything else gives 0. -/
def substNumOf (v : Value) : ℚ :=
  if v = Value.null ∨ v = Value.str "" then 0
  else
    match v with
    | Value.num q => q
    | Value.str s => (parseFloat (pyTrim s)).getD 0
    | _ => 0

/-- An element of the substituted expression: an original non-token
character, or a numeric value substituted for a field token.  (The
textual `str(float(...))` round trip is abstracted to the exact value;
all-digit tokens are kept as characters, as `replace_field` does.) -/
inductive MTok where
  | mchr (c : Char)
  | mnum (q : ℚ)
deriving DecidableEq, Repr

def substTokens (row : Row) (ts : List (Sum (List Char) Char)) : List MTok :=
  ts.flatMap (fun t =>
    match t with
    | Sum.inr c => [MTok.mchr c]
    | Sum.inl run =>
      if run.all Char.isDigit then run.map MTok.mchr
      else
        [MTok.mnum (substNumOf ((rowGet row (String.mk run)).getD (Value.num 0)))])

/-- The whitelist `0123456789+-*/.() ` checked before `eval`. -/
def mathAllowedChar (c : Char) : Bool :=
  c.isDigit || c = '+' || c = '-' || c = '*' || c = '/' || c = '.' ||
    c = '(' || c = ')' || c = ' '

def skipSpaces (ts : List MTok) : List MTok :=
  ts.dropWhile (fun t => t = MTok.mchr ' ')

def mathDigitTok (t : MTok) : Bool :=
  match t with
  | MTok.mchr c => c.isDigit || c = '.'
  | _ => false

def mathTokChars (ts : List MTok) : List Char :=
  ts.filterMap (fun t =>
    match t with
    | MTok.mchr c => some c
    | _ => none)

mutual

/-- Additive level of the Python arithmetic grammar `eval` applies to
the substituted expression (fuelled recursive descent; `+`, `-`). -/
def parseExprM : Nat → List MTok → Option (ℚ × List MTok)
  | 0, _ => none
  | fuel + 1, ts =>
    match parseTermM fuel ts with
    | some (v, r) => parseExprTail fuel v r
    | none => none

def parseExprTail : Nat → ℚ → List MTok → Option (ℚ × List MTok)
  | 0, _, _ => none
  | fuel + 1, v, ts =>
    match skipSpaces ts with
    | MTok.mchr '+' :: r =>
      match parseTermM fuel r with
      | some (w, r1) => parseExprTail fuel (qAdd v w) r1
      | none => none
    | MTok.mchr '-' :: r =>
      match parseTermM fuel r with
      | some (w, r1) => parseExprTail fuel (qSub v w) r1
      | none => none
    | _ => some (v, ts)

/-- Multiplicative level (`*`, true division; division by zero raises,
modelled as `none`). -/
def parseTermM : Nat → List MTok → Option (ℚ × List MTok)
  | 0, _ => none
  | fuel + 1, ts =>
    match parseUnaryM fuel ts with
    | some (v, r) => parseTermTail fuel v r
    | none => none

def parseTermTail : Nat → ℚ → List MTok → Option (ℚ × List MTok)
  | 0, _, _ => none
  | fuel + 1, v, ts =>
    match skipSpaces ts with
    | MTok.mchr '*' :: r =>
      match parseUnaryM fuel r with
      | some (w, r1) => parseTermTail fuel (qMul v w) r1
      | none => none
    | MTok.mchr '/' :: r =>
      match parseUnaryM fuel r with
      | some (w, r1) => if w = 0 then none else parseTermTail fuel (qDiv v w) r1
      | none => none
    | _ => some (v, ts)

def parseUnaryM : Nat → List MTok → Option (ℚ × List MTok)
  | 0, _ => none
  | fuel + 1, ts =>
    match skipSpaces ts with
    | MTok.mchr '-' :: r =>
      match parseUnaryM fuel r with
      | some (v, r1) => some (-v, r1)
      | none => none
    | MTok.mchr '+' :: r => parseUnaryM fuel r
    | _ => parseAtomM fuel ts

def parseAtomM : Nat → List MTok → Option (ℚ × List MTok)
  | 0, _ => none
  | fuel + 1, ts =>
    match skipSpaces ts with
    | MTok.mnum q :: r => some (q, r)
    | MTok.mchr '(' :: r =>
      match parseExprM fuel r with
      | some (v, r1) =>
        match skipSpaces r1 with
        | MTok.mchr ')' :: r2 => some (v, r2)
        | _ => none
      | none => none
    | ts' =>
      let run := ts'.takeWhile mathDigitTok
      if run = [] then none
      else
        match parseFloatCore (mathTokChars run) with
        | some q => some (q, ts'.drop run.length)
        | none => none

end

/-- `FastSync._evaluate_math_expression`: substitute field tokens with
numeric values, reject expressions with characters outside the
whitelist, then evaluate the arithmetic (any evaluation error gives
`none`).  The exponent operator `**` (which the whitelist happens to
admit) is outside the model; no claim exercises it. -/
def evaluate_math_expression (expression : String) (row : Row) : Option ℚ :=
  let stream := substTokens row
    (tokenizeMathGo expression.data.length expression.data)
  if ¬ (stream.all (fun t =>
      match t with
      | MTok.mchr c => mathAllowedChar c
      | MTok.mnum _ => true)) then none
  else
    match parseExprM ((stream.length + 1) * 8) stream with
    | some (v, r) => if skipSpaces r = [] then some v else none
    | none => none

/-- The per-mapping filtered source group of
`_calculate_multi_field_value` (conditions pass, exclude conditions do
not, with the empty exclude list excluding nothing). -/
def multiFilteredRows (dd : DataDict) (sourceRows : List Row)
    (mp : FieldMapping) : List Row :=
  sourceRows.filter (fun r =>
    check_conditions dd r mp.conditions &&
      ! (decide (mp.exclude_conditions ≠ []) &&
         check_conditions dd r mp.exclude_conditions))

/-- The `float(value or 0)` coercion of the multi-field `sum` branch:
falsy values count as 0, numbers pass through, strings parse as floats,
and a coercion failure contributes nothing (the `except` skips the
addition, i.e. adds 0). -/
def sumCoerce (v : Value) : ℚ :=
  let v0 : Value := if pyTruthy v then v else Value.num 0
  match v0 with
  | Value.num q => q
  | Value.str s => (parseFloat (pyTrim s)).getD 0
  | _ => 0

def pad2 (n : Nat) : String :=
  if n < 10 then "0" ++ toString n else toString n

/-- `FastSync._calculate_multi_field_value`: compute one field-mapping
value over a source group.  Python `None` results are `Value.null`.
The `sum` branch coerces with `float(value or 0)`, so numeric strings
do count here (unlike the single-field `sum`). -/
def calculate_multi_field_value (dd : DataDict) (sourceRows : List Row)
    (mp : FieldMapping) : Value :=
  let filtered := multiFilteredRows dd sourceRows mp
  if filtered = [] then
    (if mp.aggregation = "sum" then Value.num 0 else Value.null)
  else if mp.aggregation = "sum" then
    let total := filtered.foldl (fun acc r =>
      qAdd acc (sumCoerce ((rowGet r mp.source_field).getD (Value.num 0)))) 0
    Value.num (qMul total mp.factor)
  else if mp.aggregation = "latest" then
    match filtered.reverse.find? (fun r =>
        match rowGet r mp.source_field with
        | some v => v ≠ Value.null && pyTrim (pyStr v) ≠ ""
        | none => false) with
    | some r => (rowGet r mp.source_field).getD Value.null
    | none => Value.null
  else if mp.aggregation = "firstPart" then
    let value := (rowGet (filtered.headD []) mp.source_field).getD
      (Value.str "")
    if pyTruthy value then
      let sv := pyStr value
      let seps : List Char := [',', '，', ';', '；', '|', '/', '\\']
      let firstIndex := seps.foldl (fun acc sep =>
        match sv.data.findIdx? (fun c => c = sep) with
        | some i => if i < acc then i else acc
        | none => acc) sv.data.length
      if firstIndex < sv.data.length then
        Value.str (pyTrim (String.mk (sv.data.take firstIndex)))
      else Value.str (pyStr value)
    else Value.str ""
  else if mp.aggregation = "conditional_concat" then
    let parts := mp.concat_fields.filterMap (fun f =>
      let val := (rowGet (filtered.headD []) f).getD (Value.str f)
      if val ≠ Value.null ∧ pyTrim (pyStr val) ≠ "" then some (pyStr val)
      else none)
    Value.str (String.join parts)
  else if mp.aggregation = "year_if" then
    let dv := (rowGet (filtered.headD []) mp.source_field).getD Value.null
    if pyTruthy dv then
      match try_parse_datetime dv with
      | some t => Value.num (qOfNat t.year)
      | none => Value.null
    else Value.null
  else if mp.aggregation = "month_if" then
    let dv := (rowGet (filtered.headD []) mp.source_field).getD Value.null
    if pyTruthy dv then
      match try_parse_datetime dv with
      | some t => Value.str (toString t.month ++ "月")
      | none => Value.str ""
    else Value.str ""
  else if mp.aggregation = "date_year_month" then
    let dv := (rowGet (filtered.headD []) mp.source_field).getD Value.null
    if pyTruthy dv then
      match try_parse_datetime dv with
      | some t => Value.str (toString t.year ++ pad2 t.month)
      | none => Value.str ""
    else Value.str ""
  else if mp.aggregation = "math_expression" then
    if mp.math_expression ≠ "" then
      match evaluate_math_expression mp.math_expression (filtered.headD []) with
      | some r => Value.num (qMul r mp.factor)
      | none => Value.num 0
    else Value.num 0
  else if mp.aggregation = "string_replace" then
    let value := (rowGet (filtered.headD []) mp.source_field).getD
      (Value.str "")
    Value.str (mp.replace_mappings.foldl (fun res p =>
      if p.1 ≠ "" ∧ strContains res p.1 then strReplace res p.1 p.2 else res)
      (pyStr value))
  else
    (rowGet (filtered.headD []) mp.source_field).getD Value.null

/-- A queued batch operation (`self.batch_operations[table].append(...)`
dict shapes, as a tagged variant). -/
inductive Operation where
  | update (rows : List Row) (updates : List Upd)
  | insert (data : List Upd)
  | delete_all (table : String) (rows : List Row)
  | clear (rows : List Row) (updates : List Upd) (fields : List String)
deriving DecidableEq, Repr

/-- `self.batch_operations`: a defaultdict from target table to its
operation queue, modelled as a total map with default `[]`. -/
abbrev OpsMap := String → List Operation

def emptyOps : OpsMap := fun _ => []

/-- `self.batch_operations[table].append(op)`. -/
def appendOp (m : OpsMap) (t : String) (op : Operation) : OpsMap :=
  fun t' => if t' = t then m t' ++ [op] else m t'

/-- `self.batch_operations[table].insert(0, op)`. -/
def prependOp (m : OpsMap) (t : String) (op : Operation) : OpsMap :=
  fun t' => if t' = t then op :: m t' else m t'

/-- Loaded table snapshots (`self.source_data` / `self.target_data`);
a missing table reads as the empty list (`.get(name, [])`). -/
abbrev TableMap := List (String × List Row)

def lookupTable (m : TableMap) (t : String) : List Row :=
  (lookupKV m t).getD []

/-- Composite key of a row: the `|`-join of stringified key-field
values (`str(row.get(key_field, ''))`), or `__all__` when no key fields
are configured. -/
def rowKeyOf (keys : List String) (r : Row) : String :=
  if keys = [] then "__all__"
  else joinSep "|"
    (keys.map (fun k => pyStr ((rowGet r k).getD (Value.str ""))))

/-- Insertion-ordered grouping: append the row to its key group,
creating the group at the end on first sight (a Python
dict-of-lists built in iteration order). -/
def groupUpsert (g : List (String × List Row)) (k : String) (r : Row) :
    List (String × List Row) :=
  match g with
  | [] => [(k, [r])]
  | (k', rs) :: rest =>
    if k' = k then (k', rs ++ [r]) :: rest else (k', rs) :: groupUpsert rest k r

def groupByKey (keys : List String) (rows : List Row) :
    List (String × List Row) :=
  rows.foldl (fun g r => groupUpsert g (rowKeyOf keys r) r) []

/-- The source-row filter of `_process_rule`: conditions pass and, when
the exclude list is non-empty, the exclude conditions do not. -/
def filterSourceRows (dd : DataDict) (conds excl : List Condition)
    (rows : List Row) : List Row :=
  rows.filter (fun r =>
    check_conditions dd r conds &&
      ! (decide (excl ≠ []) && check_conditions dd r excl))

/-- The source group matched to one target row in the single-field
update loop, including the keyless-`broadcast` override that reuses the
`__all__` group for every target row. -/
def matchedGroup (sbk : List (String × List Row)) (aggregation : String)
    (targetKeys : List String) (t : Row) : List Row :=
  let g := (lookupKV sbk (rowKeyOf targetKeys t)).getD []
  if aggregation = "broadcast" ∧ targetKeys = [] ∧
      (lookupKV sbk "__all__").isSome then
    (lookupKV sbk "__all__").getD []
  else g

/-- The update loop of `_process_rule`: for every target row with a
non-empty matched source group, compute the payload via
`_prepare_row_data` and record `(row, update)` whenever `has_update`
(no comparison against the current target values happens here). -/
def buildUpdatePairs (dd : DataDict) (sbk : List (String × List Row))
    (aggregation : String) (sourceFields targetFields : List String)
    (factor : ℚ) (rule : SyncRule) (targetKeys : List String) :
    List Row → List (Row × Upd)
  | [] => []
  | t :: ts =>
    let rest := buildUpdatePairs dd sbk aggregation sourceFields targetFields
      factor rule targetKeys ts
    let g := matchedGroup sbk aggregation targetKeys t
    if g = [] then rest
    else
      let p := prepare_row_data dd g aggregation sourceFields targetFields
        factor rule
      if p.2 then (t, p.1) :: rest else rest

/-- The insert loop of `_process_rule`: one insert candidate per source
group, skipped when the key already exists among the target keys (or by
the keyless-`broadcast` rule) unless the whole table is being cleared
(`shouldSkipUpdates`). -/
def buildInserts (dd : DataDict) (aggregation : String)
    (sourceFields targetFields : List String) (factor : ℚ) (rule : SyncRule)
    (targetKeys existingKeys : List String) (shouldSkipUpdates : Bool)
    (targetRowsNonempty : Bool) : List (String × List Row) → List Upd
  | [] => []
  | (k, g) :: rest =>
    let restI := buildInserts dd aggregation sourceFields targetFields factor
      rule targetKeys existingKeys shouldSkipUpdates targetRowsNonempty rest
    if targetKeys ≠ [] ∧ k ∈ existingKeys ∧ ¬ shouldSkipUpdates then restI
    else if targetKeys = [] ∧ targetRowsNonempty ∧ aggregation = "broadcast" ∧
        ¬ shouldSkipUpdates then restI
    else
      let p := prepare_row_data dd g aggregation sourceFields targetFields
        factor rule
      if p.2 then p.1 :: restI else restI

/-- `FastSync._process_rule` (single-field-mapping path). -/
def process_single_rule (dd : DataDict) (sourceData targetData : TableMap)
    (ops : OpsMap) (rule : SyncRule) : OpsMap :=
  let sourceRows := lookupTable sourceData rule.source_table
  let targetRows := lookupTable targetData rule.target_table
  if sourceRows = [] then ops
  else if targetRows = [] ∧ ¬ rule.allow_insert then ops
  else
    let filtered := filterSourceRows dd rule.conditions rule.exclude_conditions
      sourceRows
    if filtered = [] then ops
    else
      let sbk := groupByKey rule.source_keys filtered
      let shouldSkipUpdates := rule.clear_before_sync ∧ rule.allow_insert
      let updPairs :=
        if targetRows ≠ [] ∧ ¬ shouldSkipUpdates then
          buildUpdatePairs dd sbk rule.aggregation rule.source_fields
            rule.target_fields rule.factor rule rule.target_keys targetRows
        else []
      let existingKeys :=
        if targetRows ≠ [] ∧ rule.target_keys ≠ [] then
          targetRows.map (rowKeyOf rule.target_keys)
        else []
      let inserts :=
        if rule.allow_insert then
          buildInserts dd rule.aggregation rule.source_fields
            rule.target_fields rule.factor rule rule.target_keys existingKeys
            (decide shouldSkipUpdates) (decide (targetRows ≠ [])) sbk
        else []
      let ops1 :=
        if updPairs ≠ [] then
          appendOp ops rule.target_table
            (Operation.update (updPairs.map Prod.fst) (updPairs.map Prod.snd))
        else ops
      if inserts ≠ [] then
        appendOp ops1 rule.target_table (Operation.insert inserts)
      else ops1

/-- A grouping key of the multi-field path: a tuple of stringified key
values, or a bare row index when no keys are configured (Python mixes
tuple and int keys in the same dict; the two kinds never compare
equal). -/
inductive MKey where
  | tup (ks : List String)
  | idx (n : Nat)
deriving DecidableEq, Repr

def lookupMK {β : Type} (l : List (MKey × β)) (k : MKey) : Option β :=
  match l with
  | [] => none
  | (k', v) :: rest => if k' = k then some v else lookupMK rest k

def setMK {β : Type} (l : List (MKey × β)) (k : MKey) (v : β) :
    List (MKey × β) :=
  match l with
  | [] => [(k, v)]
  | (k', v') :: rest =>
    if k' = k then (k', v) :: rest else (k', v') :: setMK rest k v

def mkeyOf (keys : List String) (r : Row) : MKey :=
  MKey.tup (keys.map (fun k => pyStr ((rowGet r k).getD (Value.str ""))))

def groupUpsertMK (g : List (MKey × List Row)) (k : MKey) (r : Row) :
    List (MKey × List Row) :=
  match g with
  | [] => [(k, [r])]
  | (k', rs) :: rest =>
    if k' = k then (k', rs ++ [r]) :: rest
    else (k', rs) :: groupUpsertMK rest k r

/-- Source grouping of `_process_multi_field_rule`: by tuple key, or one
singleton group per row index when no keys are configured. -/
def buildSourceGroups (sourceKeys : List String) (rows : List Row) :
    List (MKey × List Row) :=
  if sourceKeys ≠ [] then
    rows.foldl (fun g r => groupUpsertMK g (mkeyOf sourceKeys r) r) []
  else
    (rows.enum.map (fun p => (MKey.idx p.1, [p.2])))

/-- Target grouping of `_process_multi_field_rule`: key to row, later
rows with the same key overwriting earlier ones (dict assignment). -/
def buildTargetGroups (targetKeys : List String) (rows : List Row) :
    List (MKey × Row) :=
  if targetKeys ≠ [] then
    rows.foldl (fun g r => setMK g (mkeyOf targetKeys r) r) []
  else
    rows.enum.map (fun p => (MKey.idx p.1, p.2))

/-- The per-mapping change test of the multi-field update branch:
numeric values compare through `float` with an epsilon of 0.001, the
float-coercion failure falls back to `!=`, and everything else uses
`!=` directly; `None` mapping results are skipped. -/
def multiUpdateData (dd : DataDict) (mappings : List FieldMapping)
    (trow : Row) (g : List Row) : Upd :=
  mappings.foldl (fun acc mp =>
    let fv := calculate_multi_field_value dd g mp
    if fv = Value.null then acc
    else
      let cvOpt := rowGet trow mp.target_field
      let cvIsNone : Bool :=
        match cvOpt with
        | none => true
        | some Value.null => true
        | some _ => false
      let cv := cvOpt.getD Value.null
      let isNumFv : Bool :=
        match fv with
        | Value.num _ => true
        | _ => false
      if isNumFv ∧ ¬ cvIsNone then
        match fv, pyFloatStrict cv with
        | Value.num qf, some qc =>
          if Rat.blt (qMk 1 1000) (qAbs (qSub qf qc)) then
            setKey acc mp.target_field fv
          else acc
        | _, _ =>
          if fv ≠ cv then setKey acc mp.target_field fv else acc
      else if fv ≠ cv then setKey acc mp.target_field fv
      else acc) []

/-- The new-row synthesis of the multi-field insert branch: copy key
fields positionally, then one value per mapping. -/
def multiNewRow (dd : DataDict) (mappings : List FieldMapping)
    (sourceKeys targetKeys : List String) (g : List Row) : Upd :=
  let base :=
    if sourceKeys ≠ [] ∧ targetKeys ≠ [] then
      targetKeys.enum.foldl (fun acc p =>
        if p.1 < sourceKeys.length then
          setKey acc p.2
            ((rowGet (g.headD []) (sourceKeys.getD p.1 "")).getD (Value.str ""))
        else acc) []
    else []
  mappings.foldl (fun acc mp =>
    setKey acc mp.target_field (calculate_multi_field_value dd g mp)) base

/-- The main loop of `_process_multi_field_rule` over the source groups,
producing the `(row, update)` pairs and the insert payloads in
iteration order. -/
def multiLoop (dd : DataDict) (mappings : List FieldMapping)
    (allowInsert : Bool) (sourceKeys targetKeys : List String)
    (tgtGroups : List (MKey × Row)) :
    List (MKey × List Row) → List (Row × Upd) × List Upd
  | [] => ([], [])
  | (k, g) :: rest =>
    let r := multiLoop dd mappings allowInsert sourceKeys targetKeys tgtGroups
      rest
    match lookupMK tgtGroups k with
    | none =>
      if allowInsert then
        (r.1, multiNewRow dd mappings sourceKeys targetKeys g :: r.2)
      else r
    | some trow =>
      let u := multiUpdateData dd mappings trow g
      if u ≠ [] then ((trow, u) :: r.1, r.2) else r

/-- `FastSync._process_multi_field_rule`. -/
def process_multi_rule (dd : DataDict) (sourceData targetData : TableMap)
    (ops : OpsMap) (rule : SyncRule) : OpsMap :=
  let sourceRows := lookupTable sourceData rule.source_table
  let targetRows := lookupTable targetData rule.target_table
  if sourceRows = [] then ops
  else if targetRows = [] ∧ ¬ rule.allow_insert then ops
  else
    let mappings := rule.multi_field_mappings.getD []
    let sGroups := buildSourceGroups rule.source_keys sourceRows
    let tGroups := buildTargetGroups rule.target_keys targetRows
    let r := multiLoop dd mappings rule.allow_insert rule.source_keys
      rule.target_keys tGroups sGroups
    let ops1 :=
      if r.1 ≠ [] then
        appendOp ops rule.target_table
          (Operation.update (r.1.map Prod.fst) (r.1.map Prod.snd))
      else ops
    if r.2 ≠ [] then
      appendOp ops1 rule.target_table (Operation.insert r.2)
    else ops1

/-- `FastSync._process_rule`: dispatch on the presence of
`multi_field_mappings`. -/
def process_rule (dd : DataDict) (sourceData targetData : TableMap)
    (ops : OpsMap) (rule : SyncRule) : OpsMap :=
  match rule.multi_field_mappings with
  | some _ => process_multi_rule dd sourceData targetData ops rule
  | none => process_single_rule dd sourceData targetData ops rule

/-- Per-table clear bookkeeping of `_prepare_clear_operations`
(`{'delete_rows': ..., 'clear_fields': ...}`); the field set is an
insertion-ordered list (Python uses an unordered `set`; no claim
depends on the order). -/
structure ClearInfo where
  delete_rows : Bool := false
  clear_fields : List String := []
deriving DecidableEq, Repr

def addClearFields (fields newFields : List String) : List String :=
  newFields.foldl (fun acc f => if f ∈ acc then acc else acc ++ [f]) fields

/-- One rule of the collection pass of `_prepare_clear_operations`:
`allow_insert` forces (and keeps) `delete_rows`; otherwise the mapped
target fields are added to `clear_fields`, but never once `delete_rows`
is set. -/
def clearStep (m : List (String × ClearInfo)) (rule : SyncRule) :
    List (String × ClearInfo) :=
  if rule.clear_before_sync then
    let t := rule.target_table
    let info := (lookupKV m t).getD {}
    if rule.allow_insert then setKey m t { info with delete_rows := true }
    else if ¬ info.delete_rows then
      let tfs :=
        match rule.multi_field_mappings with
        | some ms => ms.map (fun mp => mp.target_field)
        | none => rule.target_fields
      setKey m t { info with clear_fields := addClearFields info.clear_fields tfs }
    else setKey m t info
  else m

def collectClear (rules : List SyncRule) : List (String × ClearInfo) :=
  rules.foldl clearStep []

/-- `FastSync._get_clear_value`: the special-field table is empty, so
every field clears to `0`. -/
def get_clear_value (_currentValue : Value) (_fieldName : String) : Value :=
  Value.num 0

/-- The clear-update payloads: per row, clear every tracked field that
exists in the row; rows with no tracked field contribute nothing. -/
def buildClearUpdates (fields : List String) (rows : List Row) : List Upd :=
  rows.filterMap (fun r =>
    let u := fields.foldl (fun acc f =>
      match rowGet r f with
      | some cur => setKey acc f (get_clear_value cur f)
      | none => acc) []
    if u = [] then none else some u)

/-- The emission pass of `_prepare_clear_operations` for one table:
nothing for an empty snapshot, a front-inserted `delete_all` when
`delete_rows` is set, else a front-inserted `clear`. -/
def emitClearOp (targetData : TableMap) (ops : OpsMap)
    (entry : String × ClearInfo) : OpsMap :=
  let t := entry.1
  let info := entry.2
  let tgtRows := lookupTable targetData t
  if tgtRows = [] then ops
  else if info.delete_rows then
    prependOp ops t (Operation.delete_all t tgtRows)
  else if info.clear_fields ≠ [] then
    let cu := buildClearUpdates info.clear_fields tgtRows
    if cu ≠ [] then
      prependOp ops t (Operation.clear tgtRows cu info.clear_fields)
    else ops
  else ops

/-- `FastSync._prepare_clear_operations`. -/
def prepare_clear_operations (targetData : TableMap) (ops : OpsMap)
    (rules : List SyncRule) : OpsMap :=
  (collectClear rules).foldl (emitClearOp targetData) ops

/-- `FastSync.prepare_operations`: filter enabled rules, run the clear
pre-pass, then process every rule in order. -/
def prepare_operations (dd : DataDict) (sourceData targetData : TableMap)
    (rules : List SyncRule) : OpsMap :=
  let enabled := rules.filter (fun r => r.should_run)
  let ops := prepare_clear_operations targetData emptyOps enabled
  enabled.foldl (fun o r => process_rule dd sourceData targetData o r) ops

/-- A scripted response of the remote adapter to one `modify_rows`
call: success, the detectable "row ids not exist" failure, or any
other exception. -/
inductive Resp where
  | ok
  | stale
  | err
deriving DecidableEq, Repr

/-- Observable events of one update execution: the 1-row probe call,
the reload-and-rematch recovery, a batch `modify_rows` call of a given
size, the inter-batch pacing sleep, and the backoff sleep between
retry attempts. -/
inductive Ev where
  | probe (n : Nat)
  | reload
  | modifyBatch (n : Nat)
  | sleep
  | retrySleep
deriving DecidableEq, Repr

/-- Consume the next scripted adapter response (an exhausted script
keeps answering `ok`). -/
def nextResp (script : List Resp) : Resp × List Resp :=
  match script with
  | [] => (Resp.ok, [])
  | r :: rest => (r, rest)

/-- `FastSync._rows_match`: two rows match when any of the hardcoded
business-key fields is present and truthy on both sides with equal
string values. -/
def rows_match (old_row current_row : Row) : Bool :=
  ["合同编号", "预算编号", "项目编号", "项目名称"].any (fun f =>
    match rowGet old_row f, rowGet current_row f with
    | some a, some b => pyTruthy a && pyTruthy b && pyStr a = pyStr b
    | _, _ => false)

/-- The adaptive update/clear batch size (50/200/500/1000 for totals
≤100/≤500/≤2000/>2000). -/
def computeBatchSize (n : Nat) : Nat :=
  if n ≤ 100 then 50
  else if n ≤ 500 then 200
  else if n ≤ 2000 then 500
  else 1000

/-- The chunked `modify_rows` loop of `_execute_batch_update`: slices of
`batchSize`, a pacing sleep after every batch except the last, and any
exception aborting the loop (re-raised to the retry wrapper).  Returns
the event trace, the remaining script and the success flag. -/
def runBatches : Nat → Nat → List Resp → List Row → List Upd →
    List Ev × List Resp × Bool
  | 0, _, script, _, _ => ([], script, true)
  | fuel + 1, batchSize, script, rows, upds =>
    if rows.length = 0 then ([], script, true)
    else
      let batchRows := rows.take batchSize
      let (r, script1) := nextResp script
      match r with
      | Resp.ok =>
        let evs := [Ev.modifyBatch batchRows.length] ++
          (if batchSize < rows.length then [Ev.sleep] else [])
        let rec1 := runBatches fuel batchSize script1 (rows.drop batchSize)
          (upds.drop batchSize)
        (evs ++ rec1.1, rec1.2.1, rec1.2.2)
      | _ => ([Ev.modifyBatch batchRows.length], script1, false)

/-- `FastSync._execute_batch_update` over a scripted adapter: the 1-row
probe `modify_rows`; on a "row ids not exist" failure a single reload
(`get_rows`, answering `reloadRows`) and a rematch of every cached
row/update pair by business key, skipping the operation when nothing
rematches; then the chunked batch loop.  Any other probe failure
re-raises. -/
def execute_batch_update (script : List Resp) (reloadRows : List Row)
    (rows : List Row) (upds : List Upd) : List Ev × List Resp × Bool :=
  if rows = [] ∨ upds = [] then ([], script, true)
  else
    let (r, script1) := nextResp script
    match r with
    | Resp.ok =>
      let rec1 := runBatches rows.length (computeBatchSize rows.length) script1
        rows upds
      ([Ev.probe 1] ++ rec1.1, rec1.2.1, rec1.2.2)
    | Resp.stale =>
      let matched := (rows.zip upds).filterMap (fun p =>
        (reloadRows.find? (fun c => rows_match p.1 c)).map (fun m => (m, p.2)))
      if matched = [] then ([Ev.probe 1, Ev.reload], script1, true)
      else
        let rows1 := matched.map Prod.fst
        let upds1 := matched.map Prod.snd
        let rec1 := runBatches rows1.length (computeBatchSize rows1.length)
          script1 rows1 upds1
        ([Ev.probe 1, Ev.reload] ++ rec1.1, rec1.2.1, rec1.2.2)
    | Resp.err => ([Ev.probe 1], script1, false)

/-- `FastSync._execute_batch_update_with_retry`: up to `maxRetries`
attempts, re-raising after the last one and sleeping (exponential
backoff) between attempts. -/
def withRetryGo (reloadRows : List Row) (rows : List Row) (upds : List Upd) :
    Nat → List Resp → List Ev × List Resp × Bool
  | 0, script => ([], script, false)
  | n + 1, script =>
    let a := execute_batch_update script reloadRows rows upds
    if a.2.2 then a
    else if n = 0 then a
    else
      let b := withRetryGo reloadRows rows upds n a.2.1
      (a.1 ++ [Ev.retrySleep] ++ b.1, b.2.1, b.2.2)

def execute_batch_update_with_retry (script : List Resp)
    (reloadRows : List Row) (rows : List Row) (upds : List Upd) :
    List Ev × List Resp × Bool :=
  withRetryGo reloadRows rows upds 3 script

def countReloads (evs : List Ev) : Nat :=
  evs.count Ev.reload

/-! ## Supporting lemmas -/

theorem foldl_add_eq_sum {α : Type} (f : α → ℚ) (l : List α) (c : ℚ) :
    l.foldl (fun acc x => acc + f x) c = c + (l.map f).sum := by
  induction l generalizing c with
  | nil => simp
  | cons x xs ih => simp [ih, add_assoc]

/-! ## Claims -/

/-- C9: for every rule whose source table snapshot is empty, processing
the rule leaves the operation queues unchanged, in both the single-field
and the multi-field-mapping paths. -/
theorem c9_empty_source_frame (dd : DataDict)
    (sourceData targetData : TableMap) (ops : OpsMap) (rule : SyncRule)
    (h : lookupTable sourceData rule.source_table = []) :
    process_rule dd sourceData targetData ops rule = ops := by
  unfold process_rule
  cases rule.multi_field_mappings with
  | none => unfold process_single_rule; simp [h]
  | some ms => unfold process_multi_rule; simp [h]

/-- Witness for C9 at a concrete empty-source configuration. -/
theorem c9_witness :
    process_rule {} [("S", [])] [("T", [[("k", Value.str "A")]])] emptyOps
      { source_table := "S", target_table := "T" } = emptyOps :=
  c9_empty_source_frame {} [("S", [])] [("T", [[("k", Value.str "A")]])]
    emptyOps { source_table := "S", target_table := "T" } rfl

/-- C10: the value parsers are total functions into `Option` (the
shallow embedding has no exception path): `_try_parse_date` yields
`none` on every non-string input, on every string whose stripped form
does not match the `YYYY-M-D` shape after removing a time-of-day
suffix, and every date it does produce satisfies the calendar
constraints `date(y, m, d)` enforces (digit triples violating them give
`none`); `_try_parse_number` and `_try_parse_datetime` likewise always
yield a parsed result or `none`. -/
theorem c10_parsers_total :
    (∀ v : Value, (∀ s, v ≠ Value.str s) → try_parse_date v = none) ∧
    (∀ s : String, pyTrim s ≠ "" →
      matchesDateShape (stripTimeOfDay (pyTrim s)) = false →
      try_parse_date (Value.str s) = none) ∧
    (∀ (s : String) (d : Date), try_parse_date (Value.str s) = some d →
      validDate d.year d.month d.day = true) ∧
    (∀ v : Value, try_parse_number v = none ∨
      ∃ q, try_parse_number v = some q) ∧
    (∀ v : Value, try_parse_datetime v = none ∨
      ∃ t, try_parse_datetime v = some t) := by
  refine ⟨?_, ?_, ?_, ?_, ?_⟩
  · intro v hv
    cases v with
    | str s => exact absurd rfl (hv s)
    | null => rfl
    | num q => rfl
    | select n => rfl
    | multi l => rfl
  · intro s hne h
    simp only [try_parse_date, if_neg hne, h]
    simp
  · intro s d h
    simp only [try_parse_date] at h
    split at h
    · exact absurd h (by simp)
    · split at h
      · split at h
        · simp only [mkDate] at h
          split at h
          · rename_i hvalid
            cases h
            exact hvalid
          · exact absurd h (by simp)
        · exact absurd h (by simp)
      · exact absurd h (by simp)
  · intro v
    cases h : try_parse_number v with
    | none => exact Or.inl rfl
    | some q => exact Or.inr ⟨q, rfl⟩
  · intro v
    cases h : try_parse_datetime v with
    | none => exact Or.inl rfl
    | some t => exact Or.inr ⟨t, rfl⟩

/-- Witness for C10 at concrete inputs: a number is rejected, a
malformed string is rejected, a parsed date is calendar-valid, and the
regex's tolerance for one trailing newline before `$` is exercised (the
string keeps a newline after the space-split, yet parses). -/
theorem c10_witness :
    try_parse_date (Value.num 3) = none ∧
    try_parse_date (Value.str "31/12/2024") = none ∧
    validDate 2024 1 2 = true ∧
    try_parse_date (Value.str "2024-1-2\n x") = some ⟨2024, 1, 2⟩ :=
  ⟨c10_parsers_total.1 (Value.num 3) (fun s h => Value.noConfusion h),
   c10_parsers_total.2.1 "31/12/2024" (by decide) (by decide),
   c10_parsers_total.2.2.1 "2024-01-02" ⟨2024, 1, 2⟩ (by decide),
   by decide⟩

/-- Spec-side coercion of the single-field `sum` branch: only values
that are already numbers contribute; everything else (including numeric
strings) contributes 0. -/
def numericOnly (v : Value) : ℚ :=
  match v with
  | Value.num q => q
  | _ => 0

/-- C3 (amended): the multi-field-mapping `sum` returns factor times
the sum of the group members' source-field values coerced with
`float(value or 0)` (non-coercible contributes 0, empty filtered group
yields 0); the single-field `sum` instead sums only the values that are
already numbers, so a coercible numeric string contributes 0 there. -/
theorem c3_sum_semantics :
    (∀ (dd : DataDict) (rows : List Row) (mp : FieldMapping),
      mp.aggregation = "sum" →
      calculate_multi_field_value dd rows mp =
        Value.num (mp.factor *
          ((multiFilteredRows dd rows mp).map (fun r =>
            sumCoerce ((rowGet r mp.source_field).getD (Value.num 0)))).sum)) ∧
    (∀ (dd : DataDict) (group : List Row) (sourceFields : List String)
      (tf0 : String) (tfr : List String) (factor : ℚ) (rule : SyncRule),
      prepare_row_data dd group "sum" sourceFields (tf0 :: tfr) factor rule =
        ([(tf0, Value.num (factor *
          (group.map (fun r =>
            numericOnly ((rowGet r (sourceFields.headD "")).getD
              (Value.num 0)))).sum))], true)) := by
  constructor
  · intro dd rows mp h
    simp only [calculate_multi_field_value, h]
    by_cases hF : multiFilteredRows dd rows mp = []
    · simp [hF]
    · simp only [if_neg hF, if_pos rfl]
      rw [qMul_eq]
      have hfn : ∀ (acc : ℚ), ∀ r ∈ multiFilteredRows dd rows mp,
          qAdd acc (sumCoerce ((rowGet r mp.source_field).getD (Value.num 0))) =
            acc + sumCoerce ((rowGet r mp.source_field).getD (Value.num 0)) := by
        intro acc r _
        rw [qAdd_eq]
      rw [List.foldl_ext _ _ 0 hfn, foldl_add_eq_sum]
      rw [zero_add, mul_comm]
      simp
  · intro dd group sourceFields tf0 tfr factor rule
    have hb : ¬ (("sum" : String) = "broadcast") := by decide
    simp only [prepare_row_data, if_neg hb, if_pos rfl]
    have hfn : ∀ (acc : ℚ), ∀ r ∈ group,
        (match (rowGet r (sourceFields.headD "")).getD (Value.num 0) with
          | Value.num q => qAdd acc q
          | _ => acc) =
          acc + numericOnly ((rowGet r (sourceFields.headD "")).getD
            (Value.num 0)) := by
      intro acc r _
      cases (rowGet r (sourceFields.headD "")).getD (Value.num 0) with
      | num q => simp [numericOnly, qAdd_eq]
      | null => simp [numericOnly]
      | str s => simp [numericOnly]
      | select n => simp [numericOnly]
      | multi l => simp [numericOnly]
    rw [List.foldl_ext _ _ 0 hfn, foldl_add_eq_sum]
    rw [zero_add, qMul_eq, mul_comm]
    simp

/-- Witness for C3 at a concrete group containing a numeric string and
a number: the multi-field sum coerces both. -/
theorem c3_witness :
    calculate_multi_field_value {}
      [[("f", Value.str "5")], [("f", Value.num 2)]]
      { source_field := "f", target_field := "t", aggregation := "sum" } =
      Value.num
        (({ source_field := "f", target_field := "t", aggregation := "sum" } :
            FieldMapping).factor *
          ((multiFilteredRows {}
            [[("f", Value.str "5")], [("f", Value.num 2)]]
            { source_field := "f", target_field := "t",
              aggregation := "sum" }).map (fun r =>
            sumCoerce ((rowGet r "f").getD (Value.num 0)))).sum) :=
  c3_sum_semantics.1 {} [[("f", Value.str "5")], [("f", Value.num 2)]]
    { source_field := "f", target_field := "t", aggregation := "sum" } rfl

/-- Counterexample for C3 as stated: in the single-field path a group
member whose source-field value is the numeric string "5" (coercible to
float 5) contributes 0 to the sum, so the update payload is 0 rather
than factor times 5. -/
theorem c3_counterexample :
    prepare_row_data {} [[("f", Value.str "5")]] "sum" ["f"] ["t"] 1 {} =
      ([("t", Value.num 0)], true) ∧
    parseFloat "5" = some 5 ∧ sumCoerce (Value.str "5") = 5 := by
  decide

theorem compare_ops_eq_ne {α : Type} [LinearOrder α] (a b : α) :
    compare_ops a b "=" = ! compare_ops a b "!=" := by
  simp [compare_ops, (by decide : ¬ (("!=" : String) = "="))]

theorem compare_eq_ne_negation (fv cv : Value) :
    compare_with_operator fv cv "=" = ! compare_with_operator fv cv "!=" := by
  have hne : ¬ (("!=" : String) = "=") := by decide
  unfold compare_with_operator
  cases h1 : try_parse_date fv <;> cases h2 : try_parse_date cv
  case some.some fd cd => exact compare_ops_eq_ne fd.key cd.key
  all_goals
    cases h3 : try_parse_number fv <;> cases h4 : try_parse_number cv
  all_goals
    first
    | exact compare_ops_eq_ne _ _
    | (simp only [hne, if_neg, if_pos rfl, ite_false, ite_true]
       split <;> simp)

/-- C5: for every row and every `=` condition, evaluating the
single-condition list is the boolean negation of evaluating the same
condition with `!=`; in the special case where the row's field value is
absent/`None`/empty and the resolved comparison value is `None`/empty,
`=` evaluates to true and `!=` to false (consistent with the
negation). -/
theorem c5_eq_ne_negation (dd : DataDict) (row : Row) (c : Condition)
    (hop : c.op = "=") :
    (check_conditions dd row [c] =
      ! check_conditions dd row [{ c with op := "!=" }]) ∧
    ((rowGet row c.field = none ∨ rowGet row c.field = some Value.null ∨
        rowGet row c.field = some (Value.str "")) →
      (resolve_variable dd c.value = Value.null ∨
        resolve_variable dd c.value = Value.str "") →
      check_conditions dd row [c] = true ∧
      check_conditions dd row [{ c with op := "!=" }] = false) := by
  constructor
  · simp only [check_conditions, List.all_cons, List.all_nil, Bool.and_true,
      hop]
    exact compare_eq_ne_negation _ _
  · intro hfv hcv
    have hfveq :
        (match rowGet row c.field with
          | none => Value.str ""
          | some Value.null => Value.str ""
          | some v => v) = Value.str "" := by
      rcases hfv with h | h | h <;> rw [h]
    constructor
    · simp only [check_conditions, List.all_cons, List.all_nil, Bool.and_true,
        hop, hfveq]
      rcases hcv with h | h <;> rw [h] <;> decide
    · simp only [check_conditions, List.all_cons, List.all_nil, Bool.and_true,
        hfveq]
      rcases hcv with h | h <;> rw [h] <;> decide

/-- Witness for C5 at a concrete row and condition where both sides are
empty: `=` gives true and `!=` gives false, and they negate each
other. -/
theorem c5_witness :
    (check_conditions {} [] [{ field := "f", op := "=", value := Value.str "" }] =
      ! check_conditions {} []
        [{ field := "f", op := "!=", value := Value.str "" }]) ∧
    check_conditions {} [] [{ field := "f", op := "=", value := Value.str "" }] =
      true ∧
    check_conditions {} [] [{ field := "f", op := "!=", value := Value.str "" }] =
      false := by
  have h := c5_eq_ne_negation {} []
    { field := "f", op := "=", value := Value.str "" } rfl
  have h2 := h.2 (Or.inl rfl) (Or.inr rfl)
  exact ⟨h.1, h2.1, h2.2⟩

theorem parse_dt_str_nonempty (s : String) (t : PyDateTime)
    (h : try_parse_datetime (Value.str s) = some t) :
    pyTruthy (Value.str s) = true ∧ pyTrim s ≠ "" := by
  unfold try_parse_datetime at h
  split at h
  · exact absurd h (by simp)
  · rename_i hguard
    refine ⟨not_not.1 hguard, ?_⟩
    intro he
    simp only [he] at h
    simp at h

/-- C6: for a group of two rows with distinct parseable timestamps in
the resolved time field, the `latest` selection returns the
chronologically later row under `desc` (the default sort order) and the
earlier row under `asc`. -/
theorem c6_latest_order (dd : DataDict) (rule : SyncRule) (f : String)
    (r1 r2 : Row) (s1 s2 : String) (t1 t2 : PyDateTime)
    (htf : orElseOptStr rule.latest_config.time_field dd.latest.time_field =
      some f)
    (hf : f ≠ "")
    (h1 : rowGet r1 f = some (Value.str s1))
    (h2 : try_parse_datetime (Value.str s1) = some t1)
    (h3 : rowGet r2 f = some (Value.str s2))
    (h4 : try_parse_datetime (Value.str s2) = some t2)
    (hne : t1.key ≠ t2.key) :
    (resolveSortOrder rule dd = "desc" →
      get_latest_record dd [r1, r2] rule =
        some (if t1.key < t2.key then r2 else r1)) ∧
    (resolveSortOrder rule dd = "asc" →
      get_latest_record dd [r1, r2] rule =
        some (if t1.key < t2.key then r1 else r2)) := by
  have p1 := parse_dt_str_nonempty s1 t1 h2
  have p2 := parse_dt_str_nonempty s2 t2 h4
  have hvr : validRecordsFor [r1, r2] f = [(r1, t1), (r2, t2)] := by
    simp [validRecordsFor, h1, h3, h2, h4, p1.1, p1.2, p2.1, p2.2, pyStr]
  have hfirst : firstFieldWithValid [r1, r2] (resolveTimeFields rule dd) =
      some [(r1, t1), (r2, t2)] := by
    have hfields : resolveTimeFields rule dd =
        f :: orElseList rule.latest_config.fallback_time_fields
          (dd.latest.fallback_time_fields.getD []) := by
      simp [resolveTimeFields, htf, hf]
    rw [hfields]
    simp [firstFieldWithValid, hvr]
  constructor
  · intro hso
    simp only [get_latest_record, hfirst, hso]
    by_cases hlt : t1.key < t2.key
    · simp [sortDescBy, insertDescBy, hlt]
    · simp [sortDescBy, insertDescBy, hlt]
  · intro hso
    simp only [get_latest_record, hfirst, hso]
    by_cases hlt : t1.key < t2.key
    · have h21 : ¬ t2.key < t1.key := Nat.lt_asymm hlt
      simp [sortAscBy, insertAscBy, hlt, h21]
    · have h21 : t2.key < t1.key :=
        Nat.lt_of_le_of_ne (Nat.le_of_not_lt hlt) (Ne.symm hne)
      simp [sortAscBy, insertAscBy, hlt, h21]

/-- Witness for C6 at two concrete rows: January vs June 2024, under
the default (`desc`) order and under `asc`. -/
theorem c6_witness :
    get_latest_record {}
      [[("d", Value.str "2024-01-01"), ("v", Value.str "early")],
       [("d", Value.str "2024-06-01"), ("v", Value.str "late")]]
      { latest_config := { time_field := some "d" } } =
      some [("d", Value.str "2024-06-01"), ("v", Value.str "late")] ∧
    get_latest_record {}
      [[("d", Value.str "2024-01-01"), ("v", Value.str "early")],
       [("d", Value.str "2024-06-01"), ("v", Value.str "late")]]
      { latest_config := { time_field := some "d", sort_order := some "asc" } } =
      some [("d", Value.str "2024-01-01"), ("v", Value.str "early")] := by
  constructor
  · have h := c6_latest_order {}
      { latest_config := { time_field := some "d" } } "d"
      [("d", Value.str "2024-01-01"), ("v", Value.str "early")]
      [("d", Value.str "2024-06-01"), ("v", Value.str "late")]
      "2024-01-01" "2024-06-01"
      ⟨2024, 1, 1, 0, 0, 0⟩ ⟨2024, 6, 1, 0, 0, 0⟩
      rfl (by decide) rfl (by decide) rfl (by decide) (by decide)
    simpa using h.1 rfl
  · have h := c6_latest_order {}
      { latest_config := { time_field := some "d", sort_order := some "asc" } }
      "d"
      [("d", Value.str "2024-01-01"), ("v", Value.str "early")]
      [("d", Value.str "2024-06-01"), ("v", Value.str "late")]
      "2024-01-01" "2024-06-01"
      ⟨2024, 1, 1, 0, 0, 0⟩ ⟨2024, 6, 1, 0, 0, 0⟩
      rfl (by decide) rfl (by decide) rfl (by decide) (by decide)
    simpa using h.2 rfl

/-- The event trace of an all-successful chunked update loop, as a
function of the remaining row count. -/
def okTrace : Nat → Nat → Nat → List Ev
  | 0, _, _ => []
  | fuel + 1, bs, n =>
    if n = 0 then []
    else
      Ev.modifyBatch (min bs n) ::
        ((if bs < n then [Ev.sleep] else []) ++ okTrace fuel bs (n - bs))

theorem runBatches_ok_trace :
    ∀ (fuel bs k : Nat) (rows : List Row) (upds : List Upd),
    (runBatches fuel bs (List.replicate k Resp.ok) rows upds).1 =
      okTrace fuel bs rows.length
  | 0, _, _, _, _ => rfl
  | fuel + 1, bs, k, rows, upds => by
    simp only [runBatches, okTrace]
    by_cases h0 : rows.length = 0
    · simp [h0]
    · rw [if_neg h0, if_neg h0]
      have hnr : nextResp (List.replicate k Resp.ok) =
          (Resp.ok, List.replicate (k - 1) Resp.ok) := by
        cases k with
        | zero => rfl
        | succ k' => simp [nextResp, List.replicate_succ]
      rw [hnr]
      simp only [List.length_take]
      rw [runBatches_ok_trace fuel bs (k - 1) (rows.drop bs) (upds.drop bs)]
      simp [List.length_drop]

/-- C8: an update operation of 1500 row/update pairs (the 501-2000
threshold, batch size 500) is sent as the 1-row probe followed by
exactly 3 `modify_rows` batches of 500 pairs each, with a pacing delay
after each batch except the last. -/
theorem c8_batching_1500 (rows : List Row) (upds : List Upd)
    (hr : rows.length = 1500) (hu : upds.length = 1500) :
    (execute_batch_update (List.replicate 4 Resp.ok) [] rows upds).1 =
      [Ev.probe 1, Ev.modifyBatch 500, Ev.sleep, Ev.modifyBatch 500, Ev.sleep,
        Ev.modifyBatch 500] := by
  have hrne : rows ≠ [] := by
    intro h
    rw [h] at hr
    simp at hr
  have hune : upds ≠ [] := by
    intro h
    rw [h] at hu
    simp at hu
  simp only [execute_batch_update]
  rw [if_neg (by simp [hrne, hune])]
  have hnr : nextResp (List.replicate 4 Resp.ok) =
      (Resp.ok, List.replicate 3 Resp.ok) := rfl
  rw [hnr]
  simp only
  rw [runBatches_ok_trace rows.length (computeBatchSize rows.length) 3 rows
    upds]
  rw [hr]
  decide

/-- Witness for C8 at a concrete 1500-pair operation. -/
theorem c8_witness :
    (execute_batch_update (List.replicate 4 Resp.ok) []
      (List.replicate 1500 ([] : Row)) (List.replicate 1500 ([] : Upd))).1 =
      [Ev.probe 1, Ev.modifyBatch 500, Ev.sleep, Ev.modifyBatch 500, Ev.sleep,
        Ev.modifyBatch 500] :=
  c8_batching_1500 (List.replicate 1500 ([] : Row))
    (List.replicate 1500 ([] : Upd)) (List.length_replicate 1500 _)
    (List.length_replicate 1500 _)

theorem runBatches_no_reload :
    ∀ (fuel bs : Nat) (script : List Resp) (rows : List Row)
      (upds : List Upd),
    countReloads (runBatches fuel bs script rows upds).1 = 0
  | 0, _, _, _, _ => rfl
  | fuel + 1, bs, script, rows, upds => by
    simp only [runBatches]
    by_cases h0 : rows.length = 0
    · simp [h0, countReloads]
    · rw [if_neg h0]
      rcases hnr : nextResp script with ⟨r, s1⟩
      cases r with
      | ok =>
        have hrec := runBatches_no_reload fuel bs s1 (rows.drop bs)
          (upds.drop bs)
        simp only [countReloads] at hrec ⊢
        simp only [List.count_append, hrec]
        split <;> simp
      | stale => simp [countReloads]
      | err => simp [countReloads]

theorem ebu_reload_le_one (script : List Resp) (reloadRows rows : List Row)
    (upds : List Upd) :
    countReloads (execute_batch_update script reloadRows rows upds).1 ≤ 1 := by
  unfold execute_batch_update
  split
  · simp [countReloads]
  · rcases hnr : nextResp script with ⟨r, s1⟩
    cases r with
    | ok =>
      have hrec := runBatches_no_reload rows.length
        (computeBatchSize rows.length) s1 rows upds
      simp only [countReloads] at hrec ⊢
      simp [hrec]
    | stale =>
      by_cases hm : (rows.zip upds).filterMap (fun p =>
          (reloadRows.find? (fun c => rows_match p.1 c)).map
            (fun m => (m, p.2))) = []
      · simp [hm, countReloads]
      · simp only [if_neg hm, countReloads]
        have hrec := fun fuel bs => runBatches_no_reload fuel bs s1
          (((rows.zip upds).filterMap (fun p =>
            (reloadRows.find? (fun c => rows_match p.1 c)).map
              (fun m => (m, p.2)))).map Prod.fst)
          (((rows.zip upds).filterMap (fun p =>
            (reloadRows.find? (fun c => rows_match p.1 c)).map
              (fun m => (m, p.2)))).map Prod.snd)
        simp only [countReloads] at hrec
        simp [hrec]
    | err => simp [countReloads]

theorem withRetryGo_reload_le (reloadRows rows : List Row) (upds : List Upd) :
    ∀ (n : Nat) (script : List Resp),
    countReloads (withRetryGo reloadRows rows upds n script).1 ≤ n
  | 0, script => by simp [withRetryGo, countReloads]
  | n + 1, script => by
    simp only [withRetryGo]
    split
    · exact Nat.le_trans (ebu_reload_le_one script reloadRows rows upds)
        (Nat.le_add_left 1 n)
    · split
      · exact Nat.le_trans (ebu_reload_le_one script reloadRows rows upds)
          (Nat.le_add_left 1 n)
      · have h1 := ebu_reload_le_one script reloadRows rows upds
        have h2 := withRetryGo_reload_le reloadRows rows upds n
          (execute_batch_update script reloadRows rows upds).2.1
        simp only [countReloads, List.count_append, List.count_cons,
          List.count_nil,
          (by decide : (Ev.retrySleep == Ev.reload) = false),
          Bool.false_eq_true, if_false] at h1 h2 ⊢
        omega

/-- C7 (amended): within one invocation of the batch-update routine at
most one reload-and-rematch happens, and exactly one when the probe
fails with the stale-row-ids error; if no cached row can be rematched
the operation is skipped (no batch `modify_rows` call, reported as
success); the retry wrapper re-invokes the routine at most 3 times, so
an operation sees at most 3 reload-and-rematch attempts in total, never
an unbounded loop. -/
theorem c7_rematch_bounded :
    (∀ (script : List Resp) (reloadRows rows : List Row) (upds : List Upd),
      countReloads (execute_batch_update script reloadRows rows upds).1 ≤ 1) ∧
    (∀ (script script1 : List Resp) (reloadRows rows : List Row)
      (upds : List Upd),
      rows ≠ [] → upds ≠ [] → nextResp script = (Resp.stale, script1) →
      countReloads (execute_batch_update script reloadRows rows upds).1 = 1) ∧
    (∀ (script script1 : List Resp) (reloadRows rows : List Row)
      (upds : List Upd),
      rows ≠ [] → upds ≠ [] → nextResp script = (Resp.stale, script1) →
      (rows.zip upds).filterMap (fun p =>
        (reloadRows.find? (fun c => rows_match p.1 c)).map
          (fun m => (m, p.2))) = [] →
      execute_batch_update script reloadRows rows upds =
        ([Ev.probe 1, Ev.reload], script1, true)) ∧
    (∀ (script : List Resp) (reloadRows rows : List Row) (upds : List Upd),
      countReloads
        (execute_batch_update_with_retry script reloadRows rows upds).1 ≤ 3) := by
  refine ⟨ebu_reload_le_one, ?_, ?_, ?_⟩
  · intro script script1 reloadRows rows upds hr hu hnr
    unfold execute_batch_update
    rw [if_neg (by simp [hr, hu]), hnr]
    by_cases hm : (rows.zip upds).filterMap (fun p =>
        (reloadRows.find? (fun c => rows_match p.1 c)).map
          (fun m => (m, p.2))) = []
    · simp [hm, countReloads]
    · simp only [if_neg hm, countReloads]
      have hrec := fun fuel bs => runBatches_no_reload fuel bs script1
        (((rows.zip upds).filterMap (fun p =>
          (reloadRows.find? (fun c => rows_match p.1 c)).map
            (fun m => (m, p.2)))).map Prod.fst)
        (((rows.zip upds).filterMap (fun p =>
          (reloadRows.find? (fun c => rows_match p.1 c)).map
            (fun m => (m, p.2)))).map Prod.snd)
      simp only [countReloads] at hrec
      simp [hrec]
  · intro script script1 reloadRows rows upds hr hu hnr hm
    unfold execute_batch_update
    rw [if_neg (by simp [hr, hu]), hnr]
    simp [hm]
  · intro script reloadRows rows upds
    exact withRetryGo_reload_le reloadRows rows upds 3 script

/-- Counterexample for C7 as stated: with a scripted adapter whose
probe reports stale row ids, whose first post-rematch batch fails with
an ordinary error, and whose retried probe reports stale again, a
single update operation undergoes two reload-and-rematch attempts, not
exactly one. -/
theorem c7_counterexample :
    countReloads (execute_batch_update_with_retry
      [Resp.stale, Resp.err, Resp.stale, Resp.ok]
      [[("合同编号", Value.str "C1"), ("_id", Value.str "b")]]
      [[("合同编号", Value.str "C1"), ("_id", Value.str "a")]]
      [[("t", Value.num 1)]]).1 = 2 := by
  decide

/-- Witness for C7: a stale probe with a rematchable row gives exactly
one reload, and the retry wrapper stays within the bound. -/
theorem c7_witness :
    countReloads (execute_batch_update [Resp.stale, Resp.ok]
      [[("合同编号", Value.str "C1"), ("_id", Value.str "b")]]
      [[("合同编号", Value.str "C1"), ("_id", Value.str "a")]]
      [[("t", Value.num 1)]]).1 = 1 ∧
    countReloads (execute_batch_update_with_retry [Resp.stale, Resp.ok]
      [[("合同编号", Value.str "C1"), ("_id", Value.str "b")]]
      [[("合同编号", Value.str "C1"), ("_id", Value.str "a")]]
      [[("t", Value.num 1)]]).1 ≤ 3 :=
  ⟨c7_rematch_bounded.2.1 [Resp.stale, Resp.ok] [Resp.ok]
      [[("合同编号", Value.str "C1"), ("_id", Value.str "b")]]
      [[("合同编号", Value.str "C1"), ("_id", Value.str "a")]]
      [[("t", Value.num 1)]] (by decide) (by decide) rfl,
   c7_rematch_bounded.2.2.2 [Resp.stale, Resp.ok]
      [[("合同编号", Value.str "C1"), ("_id", Value.str "b")]]
      [[("合同编号", Value.str "C1"), ("_id", Value.str "a")]]
      [[("t", Value.num 1)]]⟩

/-- C2 (amended): in the single-field path an update is recorded for
every target row whose matched source group is non-empty and whose
computed payload is non-empty (`has_update`), even when every computed
value equals the row's current value — no comparison against the
current target values is performed. -/
theorem c2_update_always_recorded (dd : DataDict)
    (sbk : List (String × List Row)) (aggregation : String)
    (sourceFields targetFields : List String) (factor : ℚ) (rule : SyncRule)
    (targetKeys : List String) (targetRows : List Row) (t : Row) (u : Upd)
    (hmem : t ∈ targetRows)
    (hne : matchedGroup sbk aggregation targetKeys t ≠ [])
    (hprep : prepare_row_data dd (matchedGroup sbk aggregation targetKeys t)
      aggregation sourceFields targetFields factor rule = (u, true))
    (hequal : ∀ p : String × Value, p ∈ u → rowGet t p.1 = some p.2) :
    (t, u) ∈ buildUpdatePairs dd sbk aggregation sourceFields targetFields
      factor rule targetKeys targetRows := by
  induction targetRows with
  | nil => cases hmem
  | cons x xs ih =>
    simp only [buildUpdatePairs]
    rcases List.mem_cons.mp hmem with h | h
    · subst h
      rw [if_neg hne, hprep]
      simp
    · have hmem' := ih h
      split
      · exact hmem'
      · split
        · exact List.mem_cons_of_mem _ hmem'
        · exact hmem'

/-- Witness for C2: a target row whose current value already equals the
computed sum still has its update pair recorded. -/
theorem c2_witness :
    ([("k", Value.str "A"), ("t", Value.num 8), ("_id", Value.str "y1")],
      [("t", Value.num 8)]) ∈
      buildUpdatePairs {} [("A", [[("k", Value.str "A"), ("v", Value.num 8)]])]
        "sum" ["v"] ["t"] 1 {} ["k"]
        [[("k", Value.str "A"), ("t", Value.num 8), ("_id", Value.str "y1")]] :=
  c2_update_always_recorded {}
    [("A", [[("k", Value.str "A"), ("v", Value.num 8)]])] "sum" ["v"] ["t"] 1
    {} ["k"]
    [[("k", Value.str "A"), ("t", Value.num 8), ("_id", Value.str "y1")]]
    [("k", Value.str "A"), ("t", Value.num 8), ("_id", Value.str "y1")]
    [("t", Value.num 8)] (by decide) (by decide) (by decide) (by decide)

/-- Counterexample for C2 as stated: the source group sums to 8, the
target row's current value is already 8, yet an update operation with
payload `t = 8` is queued. -/
theorem c2_counterexample :
    (prepare_operations {}
      [("S", [[("k", Value.str "A"), ("v", Value.num 8)]])]
      [("T", [[("k", Value.str "A"), ("t", Value.num 8),
        ("_id", Value.str "y1")]])]
      [{ source_table := "S", target_table := "T", source_keys := ["k"],
         target_keys := ["k"], aggregation := "sum",
         source_fields := ["v"], target_fields := ["t"] }]) "T" =
      [Operation.update
        [[("k", Value.str "A"), ("t", Value.num 8), ("_id", Value.str "y1")]]
        [[("t", Value.num 8)]]] ∧
    rowGet [("k", Value.str "A"), ("t", Value.num 8), ("_id", Value.str "y1")]
      "t" = some (Value.num 8) := by
  decide

def isClearOp (op : Operation) : Bool :=
  match op with
  | Operation.clear _ _ _ => true
  | _ => false

theorem lookup_setKey_self {β : Type} (m : List (String × β)) (k : String)
    (v : β) : lookupKV (setKey m k v) k = some v := by
  induction m with
  | nil => simp [setKey, lookupKV]
  | cons x xs ih =>
    by_cases h : x.1 = k
    · simp [setKey, h, lookupKV]
    · simp [setKey, h, lookupKV, ih]

theorem lookup_setKey_ne {β : Type} (m : List (String × β)) (k k' : String)
    (v : β) (h : k' ≠ k) :
    lookupKV (setKey m k v) k' = lookupKV m k' := by
  have h' : ¬ (k = k') := fun he => h he.symm
  induction m with
  | nil => simp [setKey, lookupKV, h']
  | cons x xs ih =>
    by_cases hx : x.1 = k
    · have hx' : ¬ (x.1 = k') := by
        rw [hx]
        exact h'
      simp [setKey, hx, lookupKV, hx', h']
    · simp [setKey, hx, lookupKV, ih]

theorem lookup_mem {β : Type} (m : List (String × β)) (k : String) (v : β)
    (h : lookupKV m k = some v) : (k, v) ∈ m := by
  induction m with
  | nil => simp [lookupKV] at h
  | cons x xs ih =>
    simp only [lookupKV] at h
    split at h
    · rename_i he
      cases h
      rcases x with ⟨xk, xv⟩
      simp only at he
      rw [← he]
      exact List.mem_cons_self _ _
    · exact List.mem_cons_of_mem _ (ih h)

def nodupKeys {β : Type} (m : List (String × β)) : Prop :=
  (m.map Prod.fst).Nodup

theorem mem_keys_setKey {β : Type} (m : List (String × β)) (k : String)
    (v : β) (x : String) :
    x ∈ (setKey m k v).map Prod.fst ↔ x ∈ m.map Prod.fst ∨ x = k := by
  induction m with
  | nil => simp [setKey]
  | cons y ys ih =>
    by_cases h : y.1 = k
    · rw [show setKey (y :: ys) k v = (y.1, v) :: ys by simp [setKey, h]]
      simp only [List.map_cons, List.mem_cons]
      rw [h]
      tauto
    · rw [show setKey (y :: ys) k v = y :: setKey ys k v by simp [setKey, h]]
      simp only [List.map_cons, List.mem_cons, ih]
      tauto

theorem nodup_setKey {β : Type} (m : List (String × β)) (k : String) (v : β)
    (h : nodupKeys m) : nodupKeys (setKey m k v) := by
  induction m with
  | nil => simp [setKey, nodupKeys]
  | cons y ys ih =>
    unfold nodupKeys at *
    rw [List.map_cons, List.nodup_cons] at h
    rcases h with ⟨hy, hys⟩
    by_cases hk : y.1 = k
    · rw [show setKey (y :: ys) k v = (y.1, v) :: ys by simp [setKey, hk]]
      rw [List.map_cons, List.nodup_cons]
      exact ⟨hy, hys⟩
    · rw [show setKey (y :: ys) k v = y :: setKey ys k v by simp [setKey, hk]]
      rw [List.map_cons, List.nodup_cons]
      refine ⟨?_, ih hys⟩
      intro hmem
      rcases (mem_keys_setKey ys k v y.1).mp hmem with h1 | h1
      · exact hy h1
      · exact hk h1

theorem lookup_of_mem_nodup {β : Type} (m : List (String × β)) (k : String)
    (v : β) (hnd : nodupKeys m) (hmem : (k, v) ∈ m) :
    lookupKV m k = some v := by
  induction m with
  | nil => cases hmem
  | cons y ys ih =>
    unfold nodupKeys at hnd
    rw [List.map_cons, List.nodup_cons] at hnd
    rcases hnd with ⟨hy, hys⟩
    rcases List.mem_cons.mp hmem with h | h
    · rw [← h]
      simp [lookupKV]
    · have hk : y.1 ≠ k := by
        intro he
        exact hy (he ▸ (List.mem_map.mpr ⟨(k, v), h, rfl⟩))
      simp only [lookupKV, if_neg hk]
      exact ih hys h

theorem clearStep_preserves_delete (m : List (String × ClearInfo))
    (rule : SyncRule) (t : String)
    (h : ∃ i, lookupKV m t = some i ∧ i.delete_rows = true) :
    ∃ i, lookupKV (clearStep m rule) t = some i ∧ i.delete_rows = true := by
  rcases h with ⟨i, hl, hd⟩
  unfold clearStep
  by_cases hc : rule.clear_before_sync
  · simp only [if_pos hc]
    by_cases ht : rule.target_table = t
    · subst ht
      simp only [hl, Option.getD_some]
      by_cases hi : rule.allow_insert
      · simp only [if_pos hi]
        exact ⟨_, lookup_setKey_self _ _ _, rfl⟩
      · simp only [if_neg hi, hd]
        simp only [not_true, if_false]
        exact ⟨i, lookup_setKey_self _ _ _, hd⟩
    · have hne : t ≠ rule.target_table := fun he => ht he.symm
      by_cases hi : rule.allow_insert
      · simp only [if_pos hi]
        exact ⟨i, by rw [lookup_setKey_ne _ _ _ _ hne]; exact hl, hd⟩
      · simp only [if_neg hi]
        split
        · exact ⟨i, by rw [lookup_setKey_ne _ _ _ _ hne]; exact hl, hd⟩
        · exact ⟨i, by rw [lookup_setKey_ne _ _ _ _ hne]; exact hl, hd⟩
  · simp only [if_neg hc]
    exact ⟨i, hl, hd⟩

theorem clearStep_nodup (m : List (String × ClearInfo)) (rule : SyncRule)
    (h : nodupKeys m) : nodupKeys (clearStep m rule) := by
  unfold clearStep
  split
  · split
    · exact nodup_setKey _ _ _ h
    · split <;> (dsimp only; split <;> exact nodup_setKey _ _ _ h)
  · exact h

theorem foldl_clearStep_preserves (rs : List SyncRule) (t : String) :
    ∀ (m : List (String × ClearInfo)),
    (∃ i, lookupKV m t = some i ∧ i.delete_rows = true) →
    ∃ i, lookupKV (rs.foldl clearStep m) t = some i ∧ i.delete_rows = true := by
  induction rs with
  | nil =>
    intro m h
    exact h
  | cons r rest ih =>
    intro m h
    exact ih _ (clearStep_preserves_delete m r t h)

theorem clearStep_sets_delete (m : List (String × ClearInfo))
    (rule : SyncRule) (hc : rule.clear_before_sync = true)
    (hi : rule.allow_insert = true) :
    ∃ i, lookupKV (clearStep m rule) rule.target_table = some i ∧
      i.delete_rows = true := by
  unfold clearStep
  rw [if_pos hc, if_pos hi]
  exact ⟨_, lookup_setKey_self _ _ _, rfl⟩

theorem collect_delete (rules : List SyncRule) (rule : SyncRule)
    (hmem : rule ∈ rules) (hc : rule.clear_before_sync = true)
    (hi : rule.allow_insert = true) :
    ∃ i, lookupKV (collectClear rules) rule.target_table = some i ∧
      i.delete_rows = true := by
  unfold collectClear
  rcases List.append_of_mem hmem with ⟨l1, l2, rfl⟩
  rw [List.foldl_append, List.foldl_cons]
  exact foldl_clearStep_preserves l2 _ _
    (clearStep_sets_delete _ _ hc hi)

theorem collect_nodup (rules : List SyncRule) :
    nodupKeys (collectClear rules) := by
  unfold collectClear
  suffices h : ∀ (m : List (String × ClearInfo)), nodupKeys m →
      nodupKeys (rules.foldl clearStep m) by
    exact h [] (by simp [nodupKeys])
  induction rules with
  | nil =>
    intro m h
    exact h
  | cons r rest ih =>
    intro m h
    exact ih _ (clearStep_nodup m r h)

theorem collect_all_delete (rules : List SyncRule) (rule : SyncRule)
    (hmem : rule ∈ rules) (hc : rule.clear_before_sync = true)
    (hi : rule.allow_insert = true) :
    ∀ info, (rule.target_table, info) ∈ collectClear rules →
      info.delete_rows = true := by
  intro info hinfo
  rcases collect_delete rules rule hmem hc hi with ⟨i, hl, hd⟩
  have := lookup_of_mem_nodup _ _ _ (collect_nodup rules) hinfo
  rw [this] at hl
  cases hl
  exact hd

theorem emitClearOp_no_clear_at (targetData : TableMap) (ops : OpsMap)
    (e : String × ClearInfo) (t : String)
    (he : e.1 = t → e.2.delete_rows = true)
    (hops : ∀ op ∈ ops t, isClearOp op = false) :
    ∀ op ∈ (emitClearOp targetData ops e) t, isClearOp op = false := by
  unfold emitClearOp
  split
  · exact hops
  · split
    · intro op hop
      simp only [prependOp] at hop
      by_cases ht : t = e.1
      · rw [if_pos ht] at hop
        rcases List.mem_cons.mp hop with h | h
        · rw [h]
          rfl
        · exact hops op h
      · rw [if_neg ht] at hop
        exact hops op hop
    · rename_i hdel
      split
      · dsimp only
        split
        · intro op hop
          simp only [prependOp] at hop
          by_cases ht : t = e.1
          · exact absurd (he ht.symm) hdel
          · rw [if_neg ht] at hop
            exact hops op hop
        · exact hops
      · exact hops

theorem emit_fold_no_clear (targetData : TableMap) (t : String) :
    ∀ (entries : List (String × ClearInfo)) (ops : OpsMap),
    (∀ info, (t, info) ∈ entries → info.delete_rows = true) →
    (∀ op ∈ ops t, isClearOp op = false) →
    ∀ op ∈ (entries.foldl (emitClearOp targetData) ops) t,
      isClearOp op = false := by
  intro entries
  induction entries with
  | nil =>
    intro ops _ hops
    exact hops
  | cons e rest ih =>
    intro ops hAll hops
    refine ih _ (fun info hm => hAll info (List.mem_cons_of_mem _ hm)) ?_
    refine emitClearOp_no_clear_at targetData ops e t ?_ hops
    intro he1
    have hme : (t, e.2) = e := by
      rw [← he1]
    exact hAll e.2 (hme ▸ List.mem_cons_self e rest)

theorem emitClearOp_head (targetData : TableMap) (ops : OpsMap)
    (e : String × ClearInfo) (t : String) (R : List Row)
    (hR : lookupTable targetData t = R) (hRne : R ≠ [])
    (he : e.1 = t → e.2.delete_rows = true)
    (hHead : ∃ rest, ops t = Operation.delete_all t R :: rest) :
    ∃ rest, (emitClearOp targetData ops e) t =
      Operation.delete_all t R :: rest := by
  unfold emitClearOp
  split
  · exact hHead
  · split
    · by_cases ht : t = e.1
      · refine ⟨ops t, ?_⟩
        simp only [prependOp, if_pos ht]
        rw [← ht, hR]
      · rcases hHead with ⟨rest, hrest⟩
        refine ⟨rest, ?_⟩
        simp only [prependOp, if_neg ht]
        exact hrest
    · rename_i hdel
      split
      · dsimp only
        split
        · by_cases ht : t = e.1
          · exact absurd (he ht.symm) hdel
          · rcases hHead with ⟨rest, hrest⟩
            refine ⟨rest, ?_⟩
            simp only [prependOp, if_neg ht]
            exact hrest
        · exact hHead
      · exact hHead

theorem emit_fold_head_preserve (targetData : TableMap) (t : String)
    (R : List Row) (hR : lookupTable targetData t = R) (hRne : R ≠ []) :
    ∀ (entries : List (String × ClearInfo)) (ops : OpsMap),
    (∀ info, (t, info) ∈ entries → info.delete_rows = true) →
    (∃ rest, ops t = Operation.delete_all t R :: rest) →
    ∃ rest, (entries.foldl (emitClearOp targetData) ops) t =
      Operation.delete_all t R :: rest := by
  intro entries
  induction entries with
  | nil =>
    intro ops _ h
    exact h
  | cons e rest ih =>
    intro ops hAll hHead
    refine ih _ (fun info hm => hAll info (List.mem_cons_of_mem _ hm)) ?_
    refine emitClearOp_head targetData ops e t R hR hRne ?_ hHead
    intro he1
    have hme : (t, e.2) = e := by
      rw [← he1]
    exact hAll e.2 (hme ▸ List.mem_cons_self e rest)

theorem emit_fold_head (targetData : TableMap) (t : String) (R : List Row)
    (hR : lookupTable targetData t = R) (hRne : R ≠ []) :
    ∀ (entries : List (String × ClearInfo)) (ops : OpsMap),
    (∀ info, (t, info) ∈ entries → info.delete_rows = true) →
    (∃ info, (t, info) ∈ entries) →
    ∃ rest, (entries.foldl (emitClearOp targetData) ops) t =
      Operation.delete_all t R :: rest := by
  intro entries
  induction entries with
  | nil =>
    intro ops _ hEx
    rcases hEx with ⟨info, hmem⟩
    cases hmem
  | cons e rest ih =>
    intro ops hAll hEx
    by_cases ht : e.1 = t
    · have hme : (t, e.2) = e := by
        rw [← ht]
      have hdel : e.2.delete_rows = true :=
        hAll e.2 (hme ▸ List.mem_cons_self e rest)
      refine emit_fold_head_preserve targetData t R hR hRne rest _
        (fun info hm => hAll info (List.mem_cons_of_mem _ hm)) ?_
      refine ⟨ops t, ?_⟩
      unfold emitClearOp
      rw [show lookupTable targetData e.1 = R by rw [ht, hR]]
      rw [if_neg hRne, if_pos hdel]
      simp only [prependOp, if_pos ht.symm]
      rw [ht]
    · rcases hEx with ⟨info, hmem⟩
      rcases List.mem_cons.mp hmem with h | h
      · have : e.1 = t := by
          rw [← h]
        exact absurd this ht
      · exact ih (emitClearOp targetData ops e)
          (fun i hm => hAll i (List.mem_cons_of_mem _ hm)) ⟨info, h⟩

theorem two_append_extends (ops : OpsMap) (tb : String) (c1 c2 : Prop)
    [Decidable c1] [Decidable c2] (u i : Operation)
    (hu : (∃ a b, u = Operation.update a b) ∨ (∃ d, u = Operation.insert d))
    (hi : (∃ a b, i = Operation.update a b) ∨ (∃ d, i = Operation.insert d))
    (t : String) :
    ∃ extra,
      ((if c2 then appendOp (if c1 then appendOp ops tb u else ops) tb i
        else (if c1 then appendOp ops tb u else ops)) t = ops t ++ extra) ∧
      ∀ op ∈ extra, (∃ a b, op = Operation.update a b) ∨
        (∃ d, op = Operation.insert d) := by
  by_cases h1 : c1 <;> by_cases h2 : c2 <;> by_cases ht : t = tb
  · refine ⟨[u, i], ?_, ?_⟩
    · simp [h1, h2, appendOp, ht]
    · intro op hop
      rcases List.mem_cons.mp hop with h | h
      · rw [h]
        exact hu
      · rw [List.mem_singleton.mp h]
        exact hi
  · exact ⟨[], by simp [h1, h2, appendOp, ht], by simp⟩
  · refine ⟨[u], ?_, ?_⟩
    · simp [h1, h2, appendOp, ht]
    · intro op hop
      rw [List.mem_singleton.mp hop]
      exact hu
  · exact ⟨[], by simp [h1, h2, appendOp, ht], by simp⟩
  · refine ⟨[i], ?_, ?_⟩
    · simp [h1, h2, appendOp, ht]
    · intro op hop
      rw [List.mem_singleton.mp hop]
      exact hi
  · exact ⟨[], by simp [h1, h2, appendOp, ht], by simp⟩
  · exact ⟨[], by simp [h1, h2, appendOp, ht], by simp⟩
  · exact ⟨[], by simp [h1, h2, appendOp, ht], by simp⟩

theorem process_single_extends (dd : DataDict) (src tgt : TableMap)
    (ops : OpsMap) (rule : SyncRule) (t : String) :
    ∃ extra, (process_single_rule dd src tgt ops rule) t = ops t ++ extra ∧
      ∀ op ∈ extra, (∃ a b, op = Operation.update a b) ∨
        (∃ d, op = Operation.insert d) := by
  unfold process_single_rule
  split
  · exact ⟨[], by simp, by simp⟩
  · split
    · exact ⟨[], by simp, by simp⟩
    · by_cases hf : filterSourceRows dd rule.conditions rule.exclude_conditions
          (lookupTable src rule.source_table) = []
      · exact ⟨[], by simp [hf], by simp⟩
      · simp only [if_neg hf]
        exact two_append_extends ops rule.target_table _ _ _ _
          (Or.inl ⟨_, _, rfl⟩) (Or.inr ⟨_, rfl⟩) t

theorem process_multi_extends (dd : DataDict) (src tgt : TableMap)
    (ops : OpsMap) (rule : SyncRule) (t : String) :
    ∃ extra, (process_multi_rule dd src tgt ops rule) t = ops t ++ extra ∧
      ∀ op ∈ extra, (∃ a b, op = Operation.update a b) ∨
        (∃ d, op = Operation.insert d) := by
  unfold process_multi_rule
  split
  · exact ⟨[], by simp, by simp⟩
  · split
    · exact ⟨[], by simp, by simp⟩
    · dsimp only
      exact two_append_extends ops rule.target_table _ _ _ _
        (Or.inl ⟨_, _, rfl⟩) (Or.inr ⟨_, rfl⟩) t

theorem process_rule_extends (dd : DataDict) (src tgt : TableMap)
    (ops : OpsMap) (rule : SyncRule) (t : String) :
    ∃ extra, (process_rule dd src tgt ops rule) t = ops t ++ extra ∧
      ∀ op ∈ extra, (∃ a b, op = Operation.update a b) ∨
        (∃ d, op = Operation.insert d) := by
  unfold process_rule
  cases hm : rule.multi_field_mappings with
  | some ms =>
    simp only [hm]
    exact process_multi_extends dd src tgt ops rule t
  | none =>
    simp only [hm]
    exact process_single_extends dd src tgt ops rule t

theorem fold_process_extends (dd : DataDict) (src tgt : TableMap) (t : String) :
    ∀ (rs : List SyncRule) (ops : OpsMap),
    ∃ extra, (rs.foldl (fun o r => process_rule dd src tgt o r) ops) t =
      ops t ++ extra ∧
      ∀ op ∈ extra, (∃ a b, op = Operation.update a b) ∨
        (∃ d, op = Operation.insert d)
  | [], ops => ⟨[], by simp, by simp⟩
  | r :: rest, ops => by
    rcases process_rule_extends dd src tgt ops r t with ⟨e1, he1, hp1⟩
    rcases fold_process_extends dd src tgt t rest
      (process_rule dd src tgt ops r) with ⟨e2, he2, hp2⟩
    refine ⟨e1 ++ e2, ?_, ?_⟩
    · rw [List.foldl_cons, he2, he1, List.append_assoc]
    · intro op hop
      rcases List.mem_append.mp hop with h | h
      · exact hp1 op h
      · exact hp2 op h

theorem prepare_operations_eq (dd : DataDict) (src tgt : TableMap)
    (rules : List SyncRule) :
    prepare_operations dd src tgt rules =
      (rules.filter (fun r => r.should_run)).foldl
        (fun o r => process_rule dd src tgt o r)
        (prepare_clear_operations tgt emptyOps
          (rules.filter (fun r => r.should_run))) := rfl

theorem prepare_ops_no_clear (dd : DataDict) (src tgt : TableMap)
    (rules : List SyncRule) (rule : SyncRule) (hmem : rule ∈ rules)
    (hrun : rule.should_run = true) (hc : rule.clear_before_sync = true)
    (hi : rule.allow_insert = true) :
    ∀ op ∈ (prepare_operations dd src tgt rules) rule.target_table,
      isClearOp op = false := by
  have hmem' : rule ∈ rules.filter (fun r => r.should_run) :=
    List.mem_filter.mpr ⟨hmem, hrun⟩
  have h0 : ∀ op ∈ (prepare_clear_operations tgt emptyOps
      (rules.filter (fun r => r.should_run))) rule.target_table,
      isClearOp op = false := by
    unfold prepare_clear_operations
    refine emit_fold_no_clear tgt rule.target_table _ emptyOps
      (collect_all_delete _ rule hmem' hc hi) ?_
    intro op hop
    simp [emptyOps] at hop
  intro op hop
  rw [prepare_operations_eq] at hop
  rcases fold_process_extends dd src tgt rule.target_table
    (rules.filter (fun r => r.should_run))
    (prepare_clear_operations tgt emptyOps
      (rules.filter (fun r => r.should_run))) with ⟨extra, he, hp⟩
  rw [he] at hop
  rcases List.mem_append.mp hop with h | h
  · exact h0 op h
  · rcases hp op h with ⟨a, b, rfl⟩ | ⟨d, rfl⟩ <;> rfl

theorem prepare_ops_delete_head (dd : DataDict) (src tgt : TableMap)
    (rules : List SyncRule) (rule : SyncRule) (hmem : rule ∈ rules)
    (hrun : rule.should_run = true) (hc : rule.clear_before_sync = true)
    (hi : rule.allow_insert = true)
    (hne : lookupTable tgt rule.target_table ≠ []) :
    ∃ rest, (prepare_operations dd src tgt rules) rule.target_table =
      Operation.delete_all rule.target_table
        (lookupTable tgt rule.target_table) :: rest := by
  have hmem' : rule ∈ rules.filter (fun r => r.should_run) :=
    List.mem_filter.mpr ⟨hmem, hrun⟩
  have hhead0 : ∃ rest, (prepare_clear_operations tgt emptyOps
      (rules.filter (fun r => r.should_run))) rule.target_table =
      Operation.delete_all rule.target_table
        (lookupTable tgt rule.target_table) :: rest := by
    unfold prepare_clear_operations
    refine emit_fold_head tgt rule.target_table
      (lookupTable tgt rule.target_table) rfl hne _ emptyOps
      (collect_all_delete _ rule hmem' hc hi) ?_
    rcases collect_delete _ rule hmem' hc hi with ⟨i, hl, _⟩
    exact ⟨i, lookup_mem _ _ _ hl⟩
  rcases fold_process_extends dd src tgt rule.target_table
    (rules.filter (fun r => r.should_run))
    (prepare_clear_operations tgt emptyOps
      (rules.filter (fun r => r.should_run))) with ⟨extra, he, _⟩
  rcases hhead0 with ⟨rest, hrest⟩
  rw [prepare_operations_eq, he, hrest]
  exact ⟨rest ++ extra, by simp⟩

def isDeleteAll (op : Operation) : Bool :=
  match op with
  | Operation.delete_all _ _ => true
  | _ => false

def isInsertOp (op : Operation) : Bool :=
  match op with
  | Operation.insert _ => true
  | _ => false

/-- C4: once any enabled rule marks a target table for full deletion
(`clear_before_sync` together with `allow_insert`), no clear-fields
operation is ever queued for that table, regardless of the other rules
and of rule order, and — provided the loaded target snapshot is
non-empty — the `delete_all` operation carrying the snapshot sits at
the front of that table's queue.  (The non-empty proviso amends the
claim: an empty snapshot queues no `delete_all` at all.) -/
theorem c4_delete_all_sticky (dd : DataDict) (src tgt : TableMap)
    (rules : List SyncRule) (rule : SyncRule) (hmem : rule ∈ rules)
    (hrun : rule.should_run = true) (hc : rule.clear_before_sync = true)
    (hi : rule.allow_insert = true) :
    (∀ op ∈ (prepare_operations dd src tgt rules) rule.target_table,
      isClearOp op = false) ∧
    (lookupTable tgt rule.target_table ≠ [] →
      ∃ rest, (prepare_operations dd src tgt rules) rule.target_table =
        Operation.delete_all rule.target_table
          (lookupTable tgt rule.target_table) :: rest) :=
  ⟨prepare_ops_no_clear dd src tgt rules rule hmem hrun hc hi,
   fun hne => prepare_ops_delete_head dd src tgt rules rule hmem hrun hc hi hne⟩

/-- C4 witness: a clear-only rule listed before a clear-and-insert rule
on the same table; the queue still starts with `delete_all` and holds
no clear operation. -/
theorem c4_witness :
    (∀ op ∈ (prepare_operations {}
        [("S", [[("k", Value.str "A"), ("v", Value.num 5)]])]
        [("T", [[("k", Value.str "A"), ("t", Value.num 1),
          ("_id", Value.str "r1")]])]
        [{ source_table := "S", target_table := "T", source_keys := ["k"],
           target_keys := ["k"], source_fields := ["v"],
           target_fields := ["t"], clear_before_sync := true },
         { source_table := "S", target_table := "T", source_keys := ["k"],
           target_keys := ["k"], source_fields := ["v"],
           target_fields := ["t"], clear_before_sync := true,
           allow_insert := true }]) "T",
      isClearOp op = false) ∧
    (∃ rest, (prepare_operations {}
        [("S", [[("k", Value.str "A"), ("v", Value.num 5)]])]
        [("T", [[("k", Value.str "A"), ("t", Value.num 1),
          ("_id", Value.str "r1")]])]
        [{ source_table := "S", target_table := "T", source_keys := ["k"],
           target_keys := ["k"], source_fields := ["v"],
           target_fields := ["t"], clear_before_sync := true },
         { source_table := "S", target_table := "T", source_keys := ["k"],
           target_keys := ["k"], source_fields := ["v"],
           target_fields := ["t"], clear_before_sync := true,
           allow_insert := true }]) "T" =
      Operation.delete_all "T"
        [[("k", Value.str "A"), ("t", Value.num 1), ("_id", Value.str "r1")]]
        :: rest) := by
  have h := c4_delete_all_sticky {}
    [("S", [[("k", Value.str "A"), ("v", Value.num 5)]])]
    [("T", [[("k", Value.str "A"), ("t", Value.num 1),
      ("_id", Value.str "r1")]])]
    [{ source_table := "S", target_table := "T", source_keys := ["k"],
       target_keys := ["k"], source_fields := ["v"],
       target_fields := ["t"], clear_before_sync := true },
     { source_table := "S", target_table := "T", source_keys := ["k"],
       target_keys := ["k"], source_fields := ["v"],
       target_fields := ["t"], clear_before_sync := true,
       allow_insert := true }]
    { source_table := "S", target_table := "T", source_keys := ["k"],
      target_keys := ["k"], source_fields := ["v"],
      target_fields := ["t"], clear_before_sync := true,
      allow_insert := true }
    (List.mem_cons_of_mem _ (List.mem_cons_self _ _)) rfl rfl rfl
  exact ⟨h.1, h.2 (by decide)⟩

/-- C4 counterexample: with an empty loaded target snapshot, a rule
with `clear_before_sync` and `allow_insert` queues no `delete_all` at
all — the queue is a lone insert — so the unconditional front-placement
of the original claim fails. -/
theorem c4_counterexample :
    (prepare_operations {}
      [("S", [[("k", Value.str "A"), ("v", Value.str "x")]])]
      [("T", [])]
      [{ source_table := "S", target_table := "T", source_keys := ["k"],
         target_keys := ["k"], source_fields := ["v"],
         target_fields := ["t"], clear_before_sync := true,
         allow_insert := true }]) "T" =
      [Operation.insert [[("t", Value.str "x")]]] ∧
    ((prepare_operations {}
      [("S", [[("k", Value.str "A"), ("v", Value.str "x")]])]
      [("T", [])]
      [{ source_table := "S", target_table := "T", source_keys := ["k"],
         target_keys := ["k"], source_fields := ["v"],
         target_fields := ["t"], clear_before_sync := true,
         allow_insert := true }]) "T").all
      (fun op => ! isDeleteAll op) = true := by
  decide

/-- C1: for an enabled rule with `clear_before_sync` and `allow_insert`,
(i) a non-empty loaded target snapshot is queued for deletion at the
front of the queue (an empty snapshot queues nothing, amending the
claim); (ii) in the single-field path the insert loop under the
clear-everything flag keeps every source group — no group is skipped
because its key already exists; (iii) in the multi-field path, amending
the claim, a source group whose key matches an existing target group
contributes no insert (it is routed to the update branch instead). -/
theorem c1_clear_insert_behavior (dd : DataDict) (src tgt : TableMap)
    (rules : List SyncRule) (rule : SyncRule) (hmem : rule ∈ rules)
    (hrun : rule.should_run = true) (hc : rule.clear_before_sync = true)
    (hi : rule.allow_insert = true) :
    (lookupTable tgt rule.target_table ≠ [] →
      ∃ rest, (prepare_operations dd src tgt rules) rule.target_table =
        Operation.delete_all rule.target_table
          (lookupTable tgt rule.target_table) :: rest) ∧
    (∀ (agg : String) (sf tf : List String) (factor : ℚ)
      (tks eks : List String) (tne : Bool)
      (glist : List (String × List Row)),
      buildInserts dd agg sf tf factor rule tks eks true tne glist =
        glist.filterMap (fun kg =>
          let p := prepare_row_data dd kg.2 agg sf tf factor rule
          if p.2 then some p.1 else none)) ∧
    (∀ (mappings : List FieldMapping) (sourceKeys targetKeys : List String)
      (tgtGroups : List (MKey × Row)) (k : MKey) (g : List Row)
      (restG : List (MKey × List Row)) (trow : Row),
      lookupMK tgtGroups k = some trow →
      (multiLoop dd mappings true sourceKeys targetKeys tgtGroups
        ((k, g) :: restG)).2 =
      (multiLoop dd mappings true sourceKeys targetKeys tgtGroups restG).2) := by
  refine ⟨fun hne =>
    prepare_ops_delete_head dd src tgt rules rule hmem hrun hc hi hne,
    ?_, ?_⟩
  · intro agg sf tf factor tks eks tne glist
    induction glist with
    | nil => rfl
    | cons kg rest ih =>
      cases kg with
      | mk k g =>
        simp only [buildInserts, List.filterMap_cons]
        rw [if_neg (by simp), if_neg (by simp), ih]
        dsimp only
        by_cases hp : (prepare_row_data dd g agg sf tf factor rule).2 = true
        · simp [hp]
        · simp [hp]
  · intro mappings sourceKeys targetKeys tgtGroups k g restG trow hlk
    simp only [multiLoop, hlk]
    split <;> rfl

/-- C1 witness: a clear-and-insert rule over a one-row snapshot; the
queue starts with `delete_all`, the insert loop keeps a group whose key
is listed as existing, and a key-matched multi-field group adds no
insert. -/
theorem c1_witness :
    (∃ rest, (prepare_operations {}
        [("S", [[("k", Value.str "B"), ("v", Value.num 2)]])]
        [("T", [[("k", Value.str "B"), ("t", Value.num 9),
          ("_id", Value.str "z1")]])]
        [{ source_table := "S", target_table := "T", source_keys := ["k"],
           target_keys := ["k"], source_fields := ["v"],
           target_fields := ["t"], clear_before_sync := true,
           allow_insert := true }]) "T" =
      Operation.delete_all "T"
        [[("k", Value.str "B"), ("t", Value.num 9), ("_id", Value.str "z1")]]
        :: rest) ∧
    buildInserts {} "" ["v"] ["t"] 1
      { source_table := "S", target_table := "T", source_keys := ["k"],
        target_keys := ["k"], source_fields := ["v"],
        target_fields := ["t"], clear_before_sync := true,
        allow_insert := true }
      ["k"] ["B"] true true [("B", [[("v", Value.num 2)]])] =
      [[("t", Value.num 2)]] ∧
    (multiLoop {} [] true ["k"] ["k"]
      [(MKey.tup ["B"], [("k", Value.str "B")])]
      [(MKey.tup ["B"], [[("k", Value.str "B"), ("v", Value.num 2)]])]).2 =
    (multiLoop {} [] true ["k"] ["k"]
      [(MKey.tup ["B"], [("k", Value.str "B")])] []).2 := by
  have h := c1_clear_insert_behavior {}
    [("S", [[("k", Value.str "B"), ("v", Value.num 2)]])]
    [("T", [[("k", Value.str "B"), ("t", Value.num 9),
      ("_id", Value.str "z1")]])]
    [{ source_table := "S", target_table := "T", source_keys := ["k"],
       target_keys := ["k"], source_fields := ["v"],
       target_fields := ["t"], clear_before_sync := true,
       allow_insert := true }]
    { source_table := "S", target_table := "T", source_keys := ["k"],
      target_keys := ["k"], source_fields := ["v"],
      target_fields := ["t"], clear_before_sync := true,
      allow_insert := true }
    (List.mem_cons_self _ _) rfl rfl rfl
  refine ⟨h.1 (by decide), ?_, ?_⟩
  · rw [h.2.1 "" ["v"] ["t"] 1 ["k"] ["B"] true
      [("B", [[("v", Value.num 2)]])]]
    decide
  · exact h.2.2 [] ["k"] ["k"]
      [(MKey.tup ["B"], [("k", Value.str "B")])] (MKey.tup ["B"])
      [[("k", Value.str "B"), ("v", Value.num 2)]] []
      [("k", Value.str "B")] (by decide)

def c1MultiMappings : List FieldMapping :=
  [{ source_field := "v", target_field := "v", aggregation := "sum" }]

/-- C1 counterexample: a multi-field-mapping rule with
`clear_before_sync` and `allow_insert` whose single filtered source
group key matches the existing target row queues an update for that
group, not an insert — the queue is `delete_all` followed by `update`
with no insert — refuting the claim that the multi path queues an
insert for every source group. -/
theorem c1_counterexample :
    (prepare_operations {}
      [("S", [[("k", Value.str "A"), ("v", Value.num 5)]])]
      [("T", [[("k", Value.str "A"), ("v", Value.num 1),
        ("_id", Value.str "r1")]])]
      [{ source_table := "S", target_table := "T", source_keys := ["k"],
         target_keys := ["k"], clear_before_sync := true,
         allow_insert := true,
         multi_field_mappings := some c1MultiMappings }]) "T" =
      [Operation.delete_all "T"
        [[("k", Value.str "A"), ("v", Value.num 1), ("_id", Value.str "r1")]],
       Operation.update
        [[("k", Value.str "A"), ("v", Value.num 1), ("_id", Value.str "r1")]]
        [[("v", Value.num 5)]]] ∧
    buildSourceGroups ["k"]
      [[("k", Value.str "A"), ("v", Value.num 5)]] ≠ [] ∧
    ((prepare_operations {}
      [("S", [[("k", Value.str "A"), ("v", Value.num 5)]])]
      [("T", [[("k", Value.str "A"), ("v", Value.num 1),
        ("_id", Value.str "r1")]])]
      [{ source_table := "S", target_table := "T", source_keys := ["k"],
         target_keys := ["k"], clear_before_sync := true,
         allow_insert := true,
         multi_field_mappings := some c1MultiMappings }]) "T").all
      (fun op => ! isInsertOp op) = true := by
  refine ⟨by decide, by decide, by decide⟩
